import Mathlib

set_option maxRecDepth 8000

/-!
Verification of the line-oriented SVG text-transformation pipeline of
stanhjr/svg_code_converter (src/converter.py).

The converter applies, to every line of the input (split on the line-feed
character), four regular-expression substitution stages in a fixed order:

1. strip the namespace prefixes by deleting the literal substrings
   that look like a colon followed by svg, and svg followed by a colon;
2. replace attributes matching width="digits", height="digits" and
   viewBox="tok tok tok tok" by the configured values;
3. replace stroke="#wordchars" by the configured color;
4. replace fill="#wordchars" by the configured color;

and rejoins the transformed lines with line feeds.

Python's re.sub with the patterns used here (literal text, fixed prefixes,
greedy character-class repetitions each followed by a character outside the
class) is equivalent to a leftmost, non-overlapping, maximal-munch scan.
We embed that scan as the function reSub below, operating on List Char;
character classes for the backslash-d and backslash-w regex classes are
modelled over the ASCII range (the repository's data is ASCII throughout).
-/

/-- ASCII model of the regex word class: letters, digits and underscore. -/
def isWordChar (c : Char) : Bool := c.isAlphanum || c == '_'

/-- Test whether a list starts with the given character. -/
def headIs (c : Char) : List Char → Bool
  | [] => false
  | x :: _ => x == c

/-- Fuel-driven core of the leftmost non-overlapping substitution scan.
A matcher returns the length of a match starting at the current position
(always positive for the matchers used here), or none.  On a match the
replacement is emitted and the scan resumes after the matched text; on a
failure the current character is kept and the scan advances one position. -/
def reSubF (m : List Char → Option Nat) (rep : List Char) : Nat → List Char → List Char
  | 0, s => s
  | _ + 1, [] => []
  | fuel + 1, c :: cs =>
    match m (c :: cs) with
    | some k => rep ++ reSubF m rep fuel (cs.drop (k - 1))
    | none => c :: reSubF m rep fuel cs

/-- Leftmost non-overlapping substitution of every match of m by rep,
the semantics of Python's re.sub for the patterns used in this repository. -/
def reSub (m : List Char → Option Nat) (rep : List Char) (s : List Char) : List Char :=
  reSubF m rep s.length s

theorem reSubF_fuel {m : List Char → Option Nat} {rep : List Char} :
    ∀ {f f' : Nat} {s : List Char}, s.length ≤ f → s.length ≤ f' →
      reSubF m rep f s = reSubF m rep f' s := by
  intro f
  induction f with
  | zero =>
    intro f' s hf _hf'
    have hs : s = [] := List.length_eq_zero.mp (Nat.le_zero.mp hf)
    subst hs
    cases f' <;> rfl
  | succ f ih =>
    intro f' s hf hf'
    cases s with
    | nil => cases f' <;> rfl
    | cons c cs =>
      cases f' with
      | zero => exact absurd hf' (by simp)
      | succ f' =>
        simp only [reSubF]
        have hcs : cs.length ≤ f := by simp at hf; omega
        have hcs' : cs.length ≤ f' := by simp at hf'; omega
        cases hm : m (c :: cs) with
        | none => exact congrArg (c :: ·) (ih hcs hcs')
        | some k =>
          have hdrop : (cs.drop (k - 1)).length ≤ cs.length := by
            simp [List.length_drop]
          exact congrArg (rep ++ ·) (ih (Nat.le_trans hdrop hcs) (Nat.le_trans hdrop hcs'))

theorem reSub_nil {m : List Char → Option Nat} {rep : List Char} :
    reSub m rep [] = [] := rfl

theorem reSub_cons_of_match {m : List Char → Option Nat} {rep : List Char}
    {c : Char} {cs : List Char} {k : Nat} (h : m (c :: cs) = some k) :
    reSub m rep (c :: cs) = rep ++ reSub m rep (cs.drop (k - 1)) := by
  unfold reSub
  have h1 : (c :: cs).length = cs.length + 1 := by simp
  rw [h1]
  simp only [reSubF, h]
  have hdrop : (cs.drop (k - 1)).length ≤ cs.length := by simp [List.length_drop]
  exact congrArg (rep ++ ·) (reSubF_fuel hdrop (Nat.le_refl _))

theorem reSub_cons_of_none {m : List Char → Option Nat} {rep : List Char}
    {c : Char} {cs : List Char} (h : m (c :: cs) = none) :
    reSub m rep (c :: cs) = c :: reSub m rep cs := by
  unfold reSub
  have h1 : (c :: cs).length = cs.length + 1 := by simp
  rw [h1]
  simp only [reSubF, h]

/-- Derivation tree recording how a substitution scan turns s into o:
each step either keeps a non-matching head character or replaces a match. -/
inductive Out (m : List Char → Option Nat) (rep : List Char) : List Char → List Char → Prop
  | nil : Out m rep [] []
  | repl {c : Char} {cs o : List Char} {k : Nat} :
      m (c :: cs) = some k → Out m rep (cs.drop (k - 1)) o → Out m rep (c :: cs) (rep ++ o)
  | keep {c : Char} {cs o : List Char} :
      m (c :: cs) = none → Out m rep cs o → Out m rep (c :: cs) (c :: o)

theorem out_reSub (m : List Char → Option Nat) (rep : List Char) :
    ∀ s : List Char, Out m rep s (reSub m rep s) := by
  suffices h : ∀ n s, s.length = n → Out m rep s (reSub m rep s) by
    exact fun s => h s.length s rfl
  intro n
  induction n using Nat.strong_induction_on with
  | _ n ih =>
    intro s hn
    cases s with
    | nil => exact Out.nil
    | cons c cs =>
      cases hm : m (c :: cs) with
      | none =>
        rw [reSub_cons_of_none hm]
        have hlt : cs.length < n := by simp at hn; omega
        exact Out.keep hm (ih cs.length hlt cs rfl)
      | some k =>
        rw [reSub_cons_of_match hm]
        have hlen : (cs.drop (k - 1)).length < n := by
          have : (cs.drop (k - 1)).length ≤ cs.length := by simp [List.length_drop]
          simp at hn; omega
        exact Out.repl hm (ih _ hlen _ rfl)

/-! Matchers for the five regular expressions of converter.py. -/

/-- Matcher for a literal pattern (the namespace-stripping regexes). -/
def litMatch (pat : List Char) (s : List Char) : Option Nat :=
  if pat.isPrefixOf s then some pat.length else none

/-- Matcher for the pattern name="digits" with one or more decimal digits,
used with name = width and name = height. -/
def numAttrMatch (name : List Char) (s : List Char) : Option Nat :=
  if (name ++ ['=', '"']).isPrefixOf s then
    let t := s.drop (name.length + 2)
    let n := (t.takeWhile Char.isDigit).length
    if n = 0 then none
    else if headIs '"' (t.drop n) then some (name.length + 2 + n + 1)
    else none
  else none

/-- Matcher for the pattern name="#wordchars" with one or more word
characters after the hash, used with name = stroke and name = fill. -/
def attrHashMatch (name : List Char) (s : List Char) : Option Nat :=
  if (name ++ ['=', '"', '#']).isPrefixOf s then
    let t := s.drop (name.length + 3)
    let n := (t.takeWhile isWordChar).length
    if n = 0 then none
    else if headIs '"' (t.drop n) then some (name.length + 3 + n + 1)
    else none
  else none

/-- Character class of the first two viewBox tokens: digits, dot, minus. -/
def isVbSigned (c : Char) : Bool := c.isDigit || c == '.' || c == '-'

/-- Character class of the last two viewBox tokens: digits and dot. -/
def isVbUnsigned (c : Char) : Bool := c.isDigit || c == '.'

/-- One nonempty greedy token over class p followed by the separator sep;
returns the number of consumed characters (token plus separator) and the rest. -/
def tokThen (p : Char → Bool) (sep : Char) (t : List Char) : Option (Nat × List Char) :=
  let n := (t.takeWhile p).length
  if n = 0 then none
  else if headIs sep (t.drop n) then some (n + 1, t.drop (n + 1)) else none

def viewBoxName : List Char := ['v', 'i', 'e', 'w', 'B', 'o', 'x']

/-- Matcher for the four-token viewBox pattern of converter.py. -/
def viewBoxMatch (s : List Char) : Option Nat :=
  if (viewBoxName ++ ['=', '"']).isPrefixOf s then
    (tokThen isVbSigned ' ' (s.drop 9)).bind (fun p1 =>
      (tokThen isVbSigned ' ' p1.2).bind (fun p2 =>
        (tokThen isVbUnsigned ' ' p2.2).bind (fun p3 =>
          (tokThen isVbUnsigned '"' p3.2).map (fun p4 =>
            9 + p1.1 + p2.1 + p3.1 + p4.1))))
  else none

def strokeName : List Char := ['s', 't', 'r', 'o', 'k', 'e']

def fillName : List Char := ['f', 'i', 'l', 'l']

def widthName : List Char := ['w', 'i', 'd', 't', 'h']

def heightName : List Char := ['h', 'e', 'i', 'g', 'h', 't']

def colonSvg : List Char := [':', 's', 'v', 'g']

def svgColon : List Char := ['s', 'v', 'g', ':']

/-! Embedding of the SvgCodeToHtmlConverter class. -/

/-- The converter object of converter.py: the subject SVG code together with
the configured hex color, width, height and viewBox, with the source's
default values. -/
structure SvgCodeToHtmlConverter where
  svg_code : String
  hex_color : String
  width : Int := 20
  height : Int := 20
  view_box : String := "0 0 20 20"

/-- Split on the line-feed character, as Python's split of the svg code. -/
def splitLines : List Char → List (List Char)
  | [] => [[]]
  | c :: cs =>
    if c = '\n' then [] :: splitLines cs
    else
      match splitLines cs with
      | [] => [[c]]
      | l :: ls => (c :: l) :: ls

/-- Join with line-feed separators, as Python's join of the result list. -/
def joinLines : List (List Char) → List Char
  | [] => []
  | [l] => l
  | l :: l' :: ls => l ++ '\n' :: joinLines (l' :: ls)

/-- Stage 1 of converter.py: remove every occurrence of colon-svg, then
every occurrence of svg-colon, in that order. -/
def clearSvgL (s : List Char) : List Char :=
  reSub (litMatch svgColon) [] (reSub (litMatch colonSvg) [] s)

/-- Replacement text of the stroke substitution of converter.py. -/
def strokeTemplate (conv : SvgCodeToHtmlConverter) : List Char :=
  strokeName ++ ['=', '"'] ++ conv.hex_color.data ++ ['"']

/-- Replacement text of the fill substitution of converter.py. -/
def fillTemplate (conv : SvgCodeToHtmlConverter) : List Char :=
  fillName ++ ['=', '"'] ++ conv.hex_color.data ++ ['"']

/-- Replacement text of the width substitution of converter.py; the width
is an int and is rendered in decimal by the format string. -/
def widthTemplate (conv : SvgCodeToHtmlConverter) : List Char :=
  widthName ++ ['=', '"'] ++ (toString conv.width).data ++ ['"']

/-- Replacement text of the height substitution of converter.py. -/
def heightTemplate (conv : SvgCodeToHtmlConverter) : List Char :=
  heightName ++ ['=', '"'] ++ (toString conv.height).data ++ ['"']

/-- Replacement text of the viewBox substitution of converter.py. -/
def viewBoxTemplate (conv : SvgCodeToHtmlConverter) : List Char :=
  viewBoxName ++ ['=', '"'] ++ conv.view_box.data ++ ['"']

/-- Stage 3 of converter.py: replace stroke colors of hash-word form.
The replacement template is inserted literally here; the processing that
re.sub applies to backslash escapes in the template is modelled by
parseTemplate and get_svg_tagE below, and the two treatments provably
agree whenever the configured color contains no backslash. -/
def changeStrokeL (conv : SvgCodeToHtmlConverter) (s : List Char) : List Char :=
  reSub (attrHashMatch strokeName) (strokeTemplate conv) s

/-- Stage 4 of converter.py: replace fill colors of hash-word form, with
the same literal treatment of the replacement template as changeStrokeL,
exact for backslash-free configured colors. -/
def changeFillL (conv : SvgCodeToHtmlConverter) (s : List Char) : List Char :=
  reSub (attrHashMatch fillName) (fillTemplate conv) s

/-- The width substitution of stage 2 of converter.py. -/
def widthSubL (conv : SvgCodeToHtmlConverter) (s : List Char) : List Char :=
  reSub (numAttrMatch widthName) (widthTemplate conv) s

/-- The height substitution of stage 2 of converter.py. -/
def heightSubL (conv : SvgCodeToHtmlConverter) (s : List Char) : List Char :=
  reSub (numAttrMatch heightName) (heightTemplate conv) s

/-- The viewBox substitution of stage 2 of converter.py, with the same
literal treatment of the replacement template as changeStrokeL, exact for
backslash-free configured viewBox strings.  The width and height
replacements render ints and can never contain a backslash, so for them
the literal treatment is exact for every configuration. -/
def viewBoxSubL (conv : SvgCodeToHtmlConverter) (s : List Char) : List Char :=
  reSub viewBoxMatch (viewBoxTemplate conv) s

/-- Stage 2 of converter.py: width, then height, then viewBox. -/
def changeSvgTagL (conv : SvgCodeToHtmlConverter) (s : List Char) : List Char :=
  viewBoxSubL conv (heightSubL conv (widthSubL conv s))

/-- The body of the loop of get_svg_tag: the four stages in order. -/
def lineTransform (conv : SvgCodeToHtmlConverter) (row : List Char) : List Char :=
  changeFillL conv (changeStrokeL conv (changeSvgTagL conv (clearSvgL row)))

/-- The public operation of converter.py: split the svg code into rows,
transform each row by the four stages in order, collect the results in a
list and join them with line feeds. -/
def get_svg_tag (conv : SvgCodeToHtmlConverter) : String :=
  ⟨joinLines ((splitLines conv.svg_code.data).foldl
    (fun result_list svg_code => result_list ++ [lineTransform conv svg_code]) [])⟩

/-- The configuration bundle of the specification: color, width, height
and viewBox, with the defaults of converter.py. -/
structure TransformConfig where
  color : String
  width : Int := 20
  height : Int := 20
  viewBox : String := "0 0 20 20"

/-- Build the converter object from an input string and a configuration. -/
def mkConv (s : String) (cfg : TransformConfig) : SvgCodeToHtmlConverter :=
  ⟨s, cfg.color, cfg.width, cfg.height, cfg.viewBox⟩

/-- The transform operation of the specification, realized by get_svg_tag. -/
def transform (s : String) (cfg : TransformConfig) : String :=
  get_svg_tag (mkConv s cfg)

/-- Number of lines of a string, splitting on the line-feed character. -/
def numLines (s : String) : Nat := (splitLines s.data).length

example : transform "<svg:rect svg:x=\"1\"/>" ⟨"#FF0000", 20, 20, "0 0 20 20"⟩ =
    "<rect x=\"1\"/>" := by decide

example : transform "<svg width=\"24\" height=\"24\" viewBox=\"0 0 24 24\">"
    ⟨"#FF0000", 20, 20, "0 0 20 20"⟩ =
    "<svg width=\"20\" height=\"20\" viewBox=\"0 0 20 20\">" := by decide

example : transform "<path stroke=\"#000000\" fill=\"#ffffff\"/>"
    ⟨"#FF0000", 20, 20, "0 0 20 20"⟩ =
    "<path stroke=\"#FF0000\" fill=\"#FF0000\"/>" := by decide

example : transform ":svsvg:g" ⟨"#fff", 20, 20, "0 0 20 20"⟩ = ":svg" := by decide

example : transform ":svg" ⟨"#fff", 20, 20, "0 0 20 20"⟩ = "" := by decide

/-! Basic lemmas about prefixes, takeWhile, the scan and line splitting. -/

theorem isPrefixOf_decomp {p l : List Char} :
    p.isPrefixOf l = true ↔ ∃ t, l = p ++ t := by
  induction p generalizing l with
  | nil => simp [List.isPrefixOf]
  | cons a p ih =>
    cases l with
    | nil => simp [List.isPrefixOf]
    | cons b l =>
      simp only [List.isPrefixOf, Bool.and_eq_true, beq_iff_eq, ih, List.cons_append]
      constructor
      · rintro ⟨rfl, t, rfl⟩; exact ⟨t, rfl⟩
      · rintro ⟨t, ht⟩
        injection ht with h1 h2
        exact ⟨h1.symm, t, h2⟩

theorem takeWhile_all_append {p : Char → Bool} {u : List Char} (v : List Char)
    (hu : ∀ c ∈ u, p c = true) :
    (u ++ v).takeWhile p = u ++ v.takeWhile p := by
  induction u with
  | nil => rfl
  | cons a u ih =>
    have ha : p a = true := hu a (by simp)
    simp only [List.cons_append, List.takeWhile_cons, ha, if_true]
    rw [ih (fun c hc => hu c (by simp [hc]))]

theorem takeWhile_append_stop {p : Char → Bool} {u : List Char} {x : Char} (v : List Char)
    (hu : ∀ c ∈ u, p c = true) (hx : p x = false) :
    (u ++ x :: v).takeWhile p = u := by
  rw [takeWhile_all_append _ hu]
  simp [List.takeWhile_cons, hx]

/-- Check that the matcher fails at every position of the list. -/
def noMatchAll (m : List Char → Option Nat) : List Char → Bool
  | [] => (m []).isNone
  | c :: cs => (m (c :: cs)).isNone && noMatchAll m cs

theorem reSub_of_noMatchAll {m : List Char → Option Nat} {rep : List Char} :
    ∀ {s : List Char}, noMatchAll m s = true → reSub m rep s = s := by
  intro s
  induction s with
  | nil => intro _; rfl
  | cons c cs ih =>
    intro h
    simp only [noMatchAll, Bool.and_eq_true, Option.isNone_iff_eq_none] at h
    rw [reSub_cons_of_none h.1, ih h.2]

theorem out_mem {m : List Char → Option Nat} {rep : List Char} :
    ∀ {s o : List Char}, Out m rep s o → ∀ c ∈ o, c ∈ s ∨ c ∈ rep := by
  intro s o h
  induction h with
  | nil => simp
  | repl hm _ ih =>
    intro c hc
    rcases List.mem_append.mp hc with hc | hc
    · exact Or.inr hc
    · rcases ih c hc with hc' | hc'
      · exact Or.inl (List.mem_cons_of_mem _ (List.drop_subset _ _ hc'))
      · exact Or.inr hc'
  | keep hm _ ih =>
    intro c hc
    rcases List.mem_cons.mp hc with rfl | hc
    · exact Or.inl (List.mem_cons_self _ _)
    · rcases ih c hc with hc' | hc'
      · exact Or.inl (List.mem_cons_of_mem _ hc')
      · exact Or.inr hc'

theorem reSub_mem {m : List Char → Option Nat} {rep s : List Char} :
    ∀ c ∈ reSub m rep s, c ∈ s ∨ c ∈ rep :=
  out_mem (out_reSub m rep s)

theorem splitLines_ne_nil : ∀ s : List Char, splitLines s ≠ [] := by
  intro s
  cases s with
  | nil => simp [splitLines]
  | cons c cs =>
    simp only [splitLines]
    by_cases h : c = '\n'
    · simp [h]
    · simp only [h, if_false]
      cases splitLines cs <;> simp

theorem mem_splitLines_no_nl : ∀ s : List Char, ∀ l ∈ splitLines s, '\n' ∉ l := by
  intro s
  induction s with
  | nil => intro l hl; simp [splitLines] at hl; simp [hl]
  | cons c cs ih =>
    intro l hl
    simp only [splitLines] at hl
    by_cases h : c = '\n'
    · rw [if_pos h] at hl
      rcases List.mem_cons.mp hl with rfl | hl
      · simp
      · exact ih l hl
    · rw [if_neg h] at hl
      cases hsp : splitLines cs with
      | nil => exact absurd hsp (splitLines_ne_nil cs)
      | cons l0 ls =>
        rw [hsp] at hl
        rcases List.mem_cons.mp hl with rfl | hl
        · intro hmem
          rcases List.mem_cons.mp hmem with h' | h'
          · exact h h'.symm
          · exact ih l0 (by simp [hsp]) h'
        · exact ih l (by simp [hsp, hl])

theorem splitLines_single {l : List Char} (h : '\n' ∉ l) : splitLines l = [l] := by
  induction l with
  | nil => rfl
  | cons c cs ih =>
    have hc : c ≠ '\n' := fun hc => h (by simp [hc])
    simp only [splitLines, hc, if_false]
    rw [ih (fun hm => h (by simp [hm]))]

theorem splitLines_append_nl {l : List Char} (r : List Char) (h : '\n' ∉ l) :
    splitLines (l ++ '\n' :: r) = l :: splitLines r := by
  induction l with
  | nil => simp [splitLines]
  | cons c cs ih =>
    have hc : c ≠ '\n' := fun hc => h (by simp [hc])
    simp only [List.cons_append, splitLines, hc, if_false, List.append_eq]
    rw [ih (fun hm => h (by simp [hm]))]

theorem splitLines_joinLines :
    ∀ ls : List (List Char), ls ≠ [] → (∀ l ∈ ls, '\n' ∉ l) →
      splitLines (joinLines ls) = ls := by
  intro ls
  induction ls with
  | nil => intro h; exact absurd rfl h
  | cons l ls ih =>
    intro _ hnl
    cases ls with
    | nil => exact splitLines_single (hnl l (by simp))
    | cons l' ls' =>
      simp only [joinLines]
      rw [splitLines_append_nl _ (hnl l (by simp))]
      rw [ih (by simp) (fun x hx => hnl x (by simp [hx]))]

theorem foldl_append_map {α β : Type} (f : α → β) :
    ∀ (ls : List α) (acc : List β),
      ls.foldl (fun r a => r ++ [f a]) acc = acc ++ ls.map f := by
  intro ls
  induction ls with
  | nil => intro acc; simp
  | cons a ls ih => intro acc; simp [ih]

theorem get_svg_tag_eq_map (conv : SvgCodeToHtmlConverter) :
    get_svg_tag conv =
      ⟨joinLines ((splitLines conv.svg_code.data).map (lineTransform conv))⟩ := by
  unfold get_svg_tag
  rw [foldl_append_map]
  rfl

/-! Inversion lemmas characterizing exactly when each matcher fires. -/

theorem headIs_iff {c : Char} {t : List Char} :
    headIs c t = true ↔ ∃ r, t = c :: r := by
  cases t with
  | nil => simp [headIs]
  | cons x xs => simp [headIs]

theorem dropWhile_head_false {p : Char → Bool} :
    ∀ {t : List Char} {x : Char} {xs : List Char}, t.dropWhile p = x :: xs → p x = false := by
  intro t
  induction t with
  | nil => intro x xs h; simp [List.dropWhile] at h
  | cons c cs ih =>
    intro x xs h
    rw [List.dropWhile_cons] at h
    by_cases hc : p c
    · exact ih (by rwa [if_pos hc] at h)
    · rw [if_neg hc] at h
      injection h with h1 _
      rw [← h1]
      exact Bool.of_not_eq_true hc

theorem drop_takeWhile_len {p : Char → Bool} (t : List Char) :
    t.drop (t.takeWhile p).length = t.dropWhile p := by
  have h := List.takeWhile_append_dropWhile p t
  calc t.drop (t.takeWhile p).length
      = (t.takeWhile p ++ t.dropWhile p).drop (t.takeWhile p).length := by rw [h]
    _ = t.dropWhile p := List.drop_left _ _

theorem numAttrMatch_some_iff {name s : List Char} {k : Nat} :
    numAttrMatch name s = some k ↔
      ∃ ds t, s = name ++ '=' :: '"' :: (ds ++ '"' :: t) ∧ ds ≠ [] ∧
        (∀ c ∈ ds, c.isDigit = true) ∧ k = name.length + ds.length + 3 := by
  constructor
  · intro h
    unfold numAttrMatch at h
    by_cases hpre : (name ++ ['=', '"']).isPrefixOf s
    · rw [if_pos hpre] at h
      rcases isPrefixOf_decomp.mp hpre with ⟨t0, ht0⟩
      have hdrop : s.drop (name.length + 2) = t0 := by
        rw [ht0]
        exact List.drop_left' (by simp)
      rw [hdrop] at h
      by_cases hn : (t0.takeWhile Char.isDigit).length = 0
      · rw [if_pos hn] at h; exact absurd h (by simp)
      · rw [if_neg hn] at h
        by_cases hq : headIs '"' (t0.drop (t0.takeWhile Char.isDigit).length) = true
        · rw [if_pos hq] at h
          rcases headIs_iff.mp hq with ⟨r, hr⟩
          rw [drop_takeWhile_len] at hr
          refine ⟨t0.takeWhile Char.isDigit, r, ?_, ?_, ?_, ?_⟩
          · rw [ht0, ← hr]
            simp [List.takeWhile_append_dropWhile]
          · intro hnil; rw [hnil] at hn; exact hn rfl
          · exact fun c hc => List.mem_takeWhile_imp hc
          · injection h with h1; omega
        · rw [if_neg hq] at h; exact absurd h (by simp)
    · rw [if_neg hpre] at h; exact absurd h (by simp)
  · rintro ⟨ds, t, rfl, hne, hds, rfl⟩
    simp only [numAttrMatch]
    have hpre : (name ++ ['=', '"']).isPrefixOf
        (name ++ '=' :: '"' :: (ds ++ '"' :: t)) = true :=
      isPrefixOf_decomp.mpr ⟨ds ++ '"' :: t, by simp⟩
    rw [if_pos hpre]
    have hdrop : (name ++ '=' :: '"' :: (ds ++ '"' :: t)).drop (name.length + 2) =
        ds ++ '"' :: t := by
      have : name ++ '=' :: '"' :: (ds ++ '"' :: t) =
          (name ++ ['=', '"']) ++ (ds ++ '"' :: t) := by simp
      rw [this]
      exact List.drop_left' (by simp)
    rw [hdrop]
    have htw : (ds ++ '"' :: t).takeWhile Char.isDigit = ds :=
      takeWhile_append_stop t hds (by decide)
    rw [htw]
    rw [if_neg (by simpa using hne)]
    have hq : headIs '"' ((ds ++ '"' :: t).drop ds.length) = true := by
      rw [List.drop_left' rfl]
      simp [headIs]
    rw [if_pos hq]
    congr 1
    omega

theorem attrHashMatch_some_iff {name s : List Char} {k : Nat} :
    attrHashMatch name s = some k ↔
      ∃ w t, s = name ++ '=' :: '"' :: '#' :: (w ++ '"' :: t) ∧ w ≠ [] ∧
        (∀ c ∈ w, isWordChar c = true) ∧ k = name.length + w.length + 4 := by
  constructor
  · intro h
    unfold attrHashMatch at h
    by_cases hpre : (name ++ ['=', '"', '#']).isPrefixOf s
    · rw [if_pos hpre] at h
      rcases isPrefixOf_decomp.mp hpre with ⟨t0, ht0⟩
      have hdrop : s.drop (name.length + 3) = t0 := by
        rw [ht0]
        exact List.drop_left' (by simp)
      rw [hdrop] at h
      by_cases hn : (t0.takeWhile isWordChar).length = 0
      · rw [if_pos hn] at h; exact absurd h (by simp)
      · rw [if_neg hn] at h
        by_cases hq : headIs '"' (t0.drop (t0.takeWhile isWordChar).length) = true
        · rw [if_pos hq] at h
          rcases headIs_iff.mp hq with ⟨r, hr⟩
          rw [drop_takeWhile_len] at hr
          refine ⟨t0.takeWhile isWordChar, r, ?_, ?_, ?_, ?_⟩
          · rw [ht0, ← hr]
            simp [List.takeWhile_append_dropWhile]
          · intro hnil; rw [hnil] at hn; exact hn rfl
          · exact fun c hc => List.mem_takeWhile_imp hc
          · injection h with h1; omega
        · rw [if_neg hq] at h; exact absurd h (by simp)
    · rw [if_neg hpre] at h; exact absurd h (by simp)
  · rintro ⟨w, t, rfl, hne, hw, rfl⟩
    simp only [attrHashMatch]
    have hpre : (name ++ ['=', '"', '#']).isPrefixOf
        (name ++ '=' :: '"' :: '#' :: (w ++ '"' :: t)) = true :=
      isPrefixOf_decomp.mpr ⟨w ++ '"' :: t, by simp⟩
    rw [if_pos hpre]
    have hdrop : (name ++ '=' :: '"' :: '#' :: (w ++ '"' :: t)).drop (name.length + 3) =
        w ++ '"' :: t := by
      have : name ++ '=' :: '"' :: '#' :: (w ++ '"' :: t) =
          (name ++ ['=', '"', '#']) ++ (w ++ '"' :: t) := by simp
      rw [this]
      exact List.drop_left' (by simp)
    rw [hdrop]
    have htw : (w ++ '"' :: t).takeWhile isWordChar = w :=
      takeWhile_append_stop t hw (by decide)
    rw [htw]
    rw [if_neg (by simpa using hne)]
    have hq : headIs '"' ((w ++ '"' :: t).drop w.length) = true := by
      rw [List.drop_left' rfl]
      simp [headIs]
    rw [if_pos hq]
    congr 1
    omega

theorem tokThen_some_iff {p : Char → Bool} {sep : Char} {t : List Char} {n : Nat} {r : List Char} :
    tokThen p sep t = some (n, r) ↔
      ∃ tok, t = tok ++ sep :: r ∧ tok ≠ [] ∧ (∀ c ∈ tok, p c = true) ∧
        p sep = false ∧ n = tok.length + 1 := by
  constructor
  · intro h
    simp only [tokThen] at h
    by_cases h0 : (t.takeWhile p).length = 0
    · rw [if_pos h0] at h; exact absurd h (by simp)
    · rw [if_neg h0] at h
      by_cases hq : headIs sep (t.drop (t.takeWhile p).length) = true
      · rw [if_pos hq] at h
        rcases headIs_iff.mp hq with ⟨rest, hrest⟩
        have hdw : t.dropWhile p = sep :: rest := by rw [← drop_takeWhile_len]; exact hrest
        have hps : p sep = false := dropWhile_head_false hdw
        have ht : t = t.takeWhile p ++ sep :: rest := by
          rw [← hdw]
          exact (List.takeWhile_append_dropWhile p t).symm
        injection h with h'
        injection h' with hn hr
        have hrest2 : t.drop ((t.takeWhile p).length + 1) = rest := by
          have h2 := List.drop_drop 1 (t.takeWhile p).length t
          rw [hrest] at h2
          simpa using h2.symm
        refine ⟨t.takeWhile p, ?_, ?_, ?_, hps, ?_⟩
        · rw [← hr, hrest2]; exact ht
        · intro hnil; rw [hnil] at h0; exact h0 rfl
        · exact fun c hc => List.mem_takeWhile_imp hc
        · omega
      · rw [if_neg hq] at h; exact absurd h (by simp)
  · rintro ⟨tok, rfl, hne, htok, hps, rfl⟩
    simp only [tokThen]
    have htw : (tok ++ sep :: r).takeWhile p = tok := takeWhile_append_stop r htok hps
    rw [htw]
    rw [if_neg (by simpa using hne)]
    have hq : headIs sep ((tok ++ sep :: r).drop tok.length) = true := by
      rw [List.drop_left' rfl]
      simp [headIs]
    rw [if_pos hq]
    have hr : (tok ++ sep :: r).drop (tok.length + 1) = r := by
      have : tok ++ sep :: r = (tok ++ [sep]) ++ r := by simp
      rw [this]
      exact List.drop_left' (by simp)
    rw [hr]

theorem viewBoxMatch_some_iff {s : List Char} {k : Nat} :
    viewBoxMatch s = some k ↔
      ∃ t1 t2 t3 t4 r,
        s = viewBoxName ++ '=' :: '"' ::
            (t1 ++ ' ' :: (t2 ++ ' ' :: (t3 ++ ' ' :: (t4 ++ '"' :: r)))) ∧
        t1 ≠ [] ∧ (∀ c ∈ t1, isVbSigned c = true) ∧
        t2 ≠ [] ∧ (∀ c ∈ t2, isVbSigned c = true) ∧
        t3 ≠ [] ∧ (∀ c ∈ t3, isVbUnsigned c = true) ∧
        t4 ≠ [] ∧ (∀ c ∈ t4, isVbUnsigned c = true) ∧
        k = t1.length + t2.length + t3.length + t4.length + 13 := by
  constructor
  · intro h
    unfold viewBoxMatch at h
    by_cases hpre : (viewBoxName ++ ['=', '"']).isPrefixOf s
    · rw [if_pos hpre] at h
      rcases isPrefixOf_decomp.mp hpre with ⟨t0, ht0⟩
      have hdrop : s.drop 9 = t0 := by
        rw [ht0]; exact List.drop_left' (by simp [viewBoxName])
      rw [hdrop] at h
      cases htok1 : tokThen isVbSigned ' ' t0 with
      | none => rw [htok1] at h; exact absurd h (by simp)
      | some pr1 =>
        obtain ⟨n1, r1⟩ := pr1
        rw [htok1, Option.some_bind] at h
        cases htok2 : tokThen isVbSigned ' ' r1 with
        | none => rw [htok2] at h; exact absurd h (by simp)
        | some pr2 =>
          obtain ⟨n2, r2⟩ := pr2
          rw [htok2, Option.some_bind] at h
          cases htok3 : tokThen isVbUnsigned ' ' r2 with
          | none => rw [htok3] at h; exact absurd h (by simp)
          | some pr3 =>
            obtain ⟨n3, r3⟩ := pr3
            rw [htok3, Option.some_bind] at h
            cases htok4 : tokThen isVbUnsigned '"' r3 with
            | none => rw [htok4] at h; exact absurd h (by simp)
            | some pr4 =>
              obtain ⟨n4, r4⟩ := pr4
              rw [htok4, Option.map_some'] at h
              simp only [Option.some.injEq] at h
              rcases tokThen_some_iff.mp htok1 with ⟨t1, he1, hne1, hp1, _, hn1⟩
              rcases tokThen_some_iff.mp htok2 with ⟨t2, he2, hne2, hp2, _, hn2⟩
              rcases tokThen_some_iff.mp htok3 with ⟨t3, he3, hne3, hp3, _, hn3⟩
              rcases tokThen_some_iff.mp htok4 with ⟨t4, he4, hne4, hp4, _, hn4⟩
              refine ⟨t1, t2, t3, t4, r4, ?_, hne1, hp1, hne2, hp2, hne3, hp3, hne4, hp4, ?_⟩
              · rw [ht0, he1, he2, he3, he4]
                simp [viewBoxName]
              · omega
    · rw [if_neg hpre] at h; exact absurd h (by simp)
  · rintro ⟨t1, t2, t3, t4, r, rfl, hne1, hp1, hne2, hp2, hne3, hp3, hne4, hp4, rfl⟩
    have hpre : (viewBoxName ++ ['=', '"']).isPrefixOf
        (viewBoxName ++ '=' :: '"' ::
          (t1 ++ ' ' :: (t2 ++ ' ' :: (t3 ++ ' ' :: (t4 ++ '"' :: r))))) = true :=
      isPrefixOf_decomp.mpr ⟨t1 ++ ' ' :: (t2 ++ ' ' :: (t3 ++ ' ' :: (t4 ++ '"' :: r))), by simp⟩
    have hdrop : (viewBoxName ++ '=' :: '"' ::
        (t1 ++ ' ' :: (t2 ++ ' ' :: (t3 ++ ' ' :: (t4 ++ '"' :: r))))).drop 9 =
        t1 ++ ' ' :: (t2 ++ ' ' :: (t3 ++ ' ' :: (t4 ++ '"' :: r))) := by
      have heq : viewBoxName ++ '=' :: '"' ::
          (t1 ++ ' ' :: (t2 ++ ' ' :: (t3 ++ ' ' :: (t4 ++ '"' :: r)))) =
          (viewBoxName ++ ['=', '"']) ++
            (t1 ++ ' ' :: (t2 ++ ' ' :: (t3 ++ ' ' :: (t4 ++ '"' :: r)))) := by simp
      rw [heq]
      exact List.drop_left' (by simp [viewBoxName])
    have htok1 : tokThen isVbSigned ' '
        (t1 ++ ' ' :: (t2 ++ ' ' :: (t3 ++ ' ' :: (t4 ++ '"' :: r)))) =
        some (t1.length + 1, t2 ++ ' ' :: (t3 ++ ' ' :: (t4 ++ '"' :: r))) :=
      tokThen_some_iff.mpr ⟨t1, rfl, hne1, hp1, by decide, rfl⟩
    have htok2 : tokThen isVbSigned ' ' (t2 ++ ' ' :: (t3 ++ ' ' :: (t4 ++ '"' :: r))) =
        some (t2.length + 1, t3 ++ ' ' :: (t4 ++ '"' :: r)) :=
      tokThen_some_iff.mpr ⟨t2, rfl, hne2, hp2, by decide, rfl⟩
    have htok3 : tokThen isVbUnsigned ' ' (t3 ++ ' ' :: (t4 ++ '"' :: r)) =
        some (t3.length + 1, t4 ++ '"' :: r) :=
      tokThen_some_iff.mpr ⟨t3, rfl, hne3, hp3, by decide, rfl⟩
    have htok4 : tokThen isVbUnsigned '"' (t4 ++ '"' :: r) =
        some (t4.length + 1, r) :=
      tokThen_some_iff.mpr ⟨t4, rfl, hne4, hp4, by decide, rfl⟩
    simp only [viewBoxMatch, hpre, if_true, hdrop, htok1, htok2, htok3, htok4,
      Option.some_bind, Option.map_some', Option.some.injEq]
    omega

/-! Characters of the decimal rendering of the configured int values. -/

theorem digitChar_safe (d : Nat) : Nat.digitChar d ≠ '\n' ∧ Nat.digitChar d ≠ '\\' := by
  match d with
  | 0 | 1 | 2 | 3 | 4 | 5 | 6 | 7 | 8 | 9 | 10 | 11 | 12 | 13 | 14 | 15 => decide
  | n + 16 =>
    have h : Nat.digitChar (n + 16) = '*' := by
      unfold Nat.digitChar
      repeat rw [if_neg (by omega)]
    rw [h]; decide

theorem toDigitsCore_safe :
    ∀ (f n : Nat) (acc : List Char), (∀ c ∈ acc, c ≠ '\n' ∧ c ≠ '\\') →
      ∀ c ∈ Nat.toDigitsCore 10 f n acc, c ≠ '\n' ∧ c ≠ '\\' := by
  intro f
  induction f with
  | zero =>
    intro n acc hacc c hc
    exact hacc c hc
  | succ f ih =>
    intro n acc hacc c hc
    simp only [Nat.toDigitsCore] at hc
    by_cases h0 : n / 10 = 0
    · rw [if_pos h0] at hc
      rcases List.mem_cons.mp hc with rfl | hc
      · exact digitChar_safe _
      · exact hacc c hc
    · rw [if_neg h0] at hc
      refine ih (n / 10) _ ?_ c hc
      intro x hx
      rcases List.mem_cons.mp hx with rfl | hx
      · exact digitChar_safe _
      · exact hacc x hx

theorem natRepr_safe (n : Nat) : ∀ c ∈ (Nat.repr n).data, c ≠ '\n' ∧ c ≠ '\\' := by
  intro c hc
  exact toDigitsCore_safe _ _ _ (by simp) c hc

theorem int_toString_safe (i : Int) : ∀ c ∈ (toString i).data, c ≠ '\n' ∧ c ≠ '\\' := by
  cases i with
  | ofNat n => intro c hc; exact natRepr_safe n c hc
  | negSucc n =>
    intro c hc
    have hd : (toString (Int.negSucc n)).data = '-' :: (Nat.repr (n + 1)).data := rfl
    rw [hd] at hc
    rcases List.mem_cons.mp hc with rfl | hc
    · exact ⟨by decide, by decide⟩
    · exact natRepr_safe _ c hc

/-- Whether a character is an octal digit. -/
def isOctalDigit (c : Char) : Bool := '0' ≤ c && c ≤ '7'

/-- Numeric value of a decimal digit character. -/
def digitVal (c : Char) : Nat := c.toNat - 48

/-- Python's re.sub parses its replacement template on every invocation.
After a backslash: a doubled backslash stands for one backslash; the
letter escapes for bell, backspace, form feed, line feed, carriage
return, tab and vertical tab are translated to their control characters;
a zero begins an octal escape of up to two further octal digits; a
nonzero digit followed by two further octal digits is a three-digit
octal escape when its value fits in a byte and raises re.error above
that; any other digit sequence is a group reference, which raises
re.error because the patterns of converter.py contain no groups; any
other ASCII letter raises a bad-escape re.error; a backslash before a
character that is neither a letter nor a digit is passed through with
its backslash.  The g escape introduces a named or numbered group
reference; Python accepts the whole-match form whose replacement depends
on the matched text and so lies outside this fixed-replacement model: it
is treated as a reference error here, a boundary no theorem below
exercises.  The none result stands for the raised re.error; the theorems
rely only on the two exact regions: a backslash-free template parses to
itself, and a backslash before a lone nonzero digit raises. -/
def escStep (e : Char) (rest' : List Char) : Option (List Char × List Char) :=
  if e = '\\' then some (['\\'], rest')
  else if e = 'n' then some (['\n'], rest')
  else if e = 't' then some (['\t'], rest')
  else if e = 'r' then some (['\r'], rest')
  else if e = 'a' then some ([Char.ofNat 7], rest')
  else if e = 'b' then some ([Char.ofNat 8], rest')
  else if e = 'f' then some ([Char.ofNat 12], rest')
  else if e = 'v' then some ([Char.ofNat 11], rest')
  else if e = '0' then
    match rest' with
    | [] => some ([Char.ofNat 0], [])
    | d1 :: rest2 =>
      if isOctalDigit d1 then
        match rest2 with
        | [] => some ([Char.ofNat (digitVal d1)], [])
        | d2 :: rest3 =>
          if isOctalDigit d2 then
            some ([Char.ofNat (8 * digitVal d1 + digitVal d2)], rest3)
          else some ([Char.ofNat (digitVal d1)], rest2)
      else some ([Char.ofNat 0], rest')
  else if e.isDigit then
    match rest' with
    | d2 :: d3 :: rest3 =>
      if isOctalDigit e && isOctalDigit d2 && isOctalDigit d3 then
        if e ≤ '3' then
          some ([Char.ofNat (64 * digitVal e + 8 * digitVal d2 + digitVal d3)], rest3)
        else none
      else none
    | _ => none
  else if e.isAlpha then none
  else some (['\\', e], rest')

/-- The template scan: each step either copies a plain character or hands
the character after a backslash to escStep.  Fuel-based because the
continuation returned by escStep is not a syntactic subterm; every step
consumes at least one character, so fuel equal to the length suffices. -/
def parseTemplateF : Nat → List Char → Option (List Char)
  | _, [] => some []
  | 0, _ :: _ => none
  | fuel + 1, c :: rest =>
    if c = '\\' then
      match rest with
      | [] => none
      | e :: rest' =>
        match escStep e rest' with
        | none => none
        | some (out, rem) => (parseTemplateF fuel rem).map (fun r => out ++ r)
    else (parseTemplateF fuel rest).map (fun r => c :: r)

/-- The template parse at sufficient fuel; every step of parseTemplateF
consumes at least one character, so the length of the template is enough. -/
def parseTemplate (t : List Char) : Option (List Char) :=
  parseTemplateF t.length t

theorem parseTemplateF_of_no_backslash :
    ∀ (fuel : Nat) {t : List Char}, t.length ≤ fuel → '\\' ∉ t →
      parseTemplateF fuel t = some t := by
  intro fuel
  induction fuel with
  | zero =>
    intro t hf _
    have hnil : t = [] := List.length_eq_zero.mp (Nat.le_zero.mp hf)
    subst hnil
    rfl
  | succ fuel ih =>
    intro t hf h
    cases t with
    | nil => rfl
    | cons c cs =>
      have hc : ¬ c = '\\' := fun hcc => h (by simp [hcc])
      simp only [parseTemplateF, if_neg hc]
      have hcs : cs.length ≤ fuel := by simp at hf; omega
      rw [ih hcs (fun hm => h (by simp [hm]))]
      rfl

theorem parseTemplate_of_no_backslash :
    ∀ {t : List Char}, '\\' ∉ t → parseTemplate t = some t := by
  intro t h
  exact parseTemplateF_of_no_backslash t.length (Nat.le_refl _) h

/-- The conversion with the replacement-template processing of re.sub made
explicit: the loop of get_svg_tag always runs at least once (splitting
never yields an empty list of rows), each iteration invokes every re.sub,
and so a template whose parse raises re.error makes get_svg_tag raise;
that raised re.error is the none result. -/
def get_svg_tagE (conv : SvgCodeToHtmlConverter) : Option String :=
  (parseTemplate (widthTemplate conv)).bind fun wr =>
  (parseTemplate (heightTemplate conv)).bind fun hr =>
  (parseTemplate (viewBoxTemplate conv)).bind fun vr =>
  (parseTemplate (strokeTemplate conv)).bind fun sr =>
  (parseTemplate (fillTemplate conv)).map fun fr =>
  ⟨joinLines ((splitLines conv.svg_code.data).foldl
    (fun result_list svg_code => result_list ++
      [reSub (attrHashMatch fillName) fr
        (reSub (attrHashMatch strokeName) sr
          (reSub viewBoxMatch vr
            (reSub (numAttrMatch heightName) hr
              (reSub (numAttrMatch widthName) wr (clearSvgL svg_code)))))]) [])⟩

theorem widthTemplate_no_backslash (conv : SvgCodeToHtmlConverter) :
    '\\' ∉ widthTemplate conv := by
  intro hmem
  unfold widthTemplate at hmem
  rcases List.mem_append.mp hmem with h | h
  swap
  · exact absurd h (by decide)
  rcases List.mem_append.mp h with h | h
  swap
  · exact (int_toString_safe conv.width '\\' h).2 rfl
  rcases List.mem_append.mp h with h | h
  · exact absurd h (by decide)
  · exact absurd h (by decide)

theorem heightTemplate_no_backslash (conv : SvgCodeToHtmlConverter) :
    '\\' ∉ heightTemplate conv := by
  intro hmem
  unfold heightTemplate at hmem
  rcases List.mem_append.mp hmem with h | h
  swap
  · exact absurd h (by decide)
  rcases List.mem_append.mp h with h | h
  swap
  · exact (int_toString_safe conv.height '\\' h).2 rfl
  rcases List.mem_append.mp h with h | h
  · exact absurd h (by decide)
  · exact absurd h (by decide)

theorem viewBoxTemplate_no_backslash (conv : SvgCodeToHtmlConverter)
    (hv : '\\' ∉ conv.view_box.data) : '\\' ∉ viewBoxTemplate conv := by
  intro hmem
  unfold viewBoxTemplate at hmem
  rcases List.mem_append.mp hmem with h | h
  swap
  · exact absurd h (by decide)
  rcases List.mem_append.mp h with h | h
  swap
  · exact hv h
  rcases List.mem_append.mp h with h | h
  · exact absurd h (by decide)
  · exact absurd h (by decide)

theorem strokeTemplate_no_backslash (conv : SvgCodeToHtmlConverter)
    (hc : '\\' ∉ conv.hex_color.data) : '\\' ∉ strokeTemplate conv := by
  intro hmem
  unfold strokeTemplate at hmem
  rcases List.mem_append.mp hmem with h | h
  swap
  · exact absurd h (by decide)
  rcases List.mem_append.mp h with h | h
  swap
  · exact hc h
  rcases List.mem_append.mp h with h | h
  · exact absurd h (by decide)
  · exact absurd h (by decide)

theorem fillTemplate_no_backslash (conv : SvgCodeToHtmlConverter)
    (hc : '\\' ∉ conv.hex_color.data) : '\\' ∉ fillTemplate conv := by
  intro hmem
  unfold fillTemplate at hmem
  rcases List.mem_append.mp hmem with h | h
  swap
  · exact absurd h (by decide)
  rcases List.mem_append.mp h with h | h
  swap
  · exact hc h
  rcases List.mem_append.mp h with h | h
  · exact absurd h (by decide)
  · exact absurd h (by decide)

theorem get_svg_tagE_of_no_backslash (conv : SvgCodeToHtmlConverter)
    (hc : '\\' ∉ conv.hex_color.data) (hv : '\\' ∉ conv.view_box.data) :
    get_svg_tagE conv = some (get_svg_tag conv) := by
  have hw : parseTemplate (widthTemplate conv) = some (widthTemplate conv) :=
    parseTemplate_of_no_backslash (widthTemplate_no_backslash conv)
  have hh : parseTemplate (heightTemplate conv) = some (heightTemplate conv) :=
    parseTemplate_of_no_backslash (heightTemplate_no_backslash conv)
  have hvb : parseTemplate (viewBoxTemplate conv) = some (viewBoxTemplate conv) :=
    parseTemplate_of_no_backslash (viewBoxTemplate_no_backslash conv hv)
  have hs : parseTemplate (strokeTemplate conv) = some (strokeTemplate conv) :=
    parseTemplate_of_no_backslash (strokeTemplate_no_backslash conv hc)
  have hf : parseTemplate (fillTemplate conv) = some (fillTemplate conv) :=
    parseTemplate_of_no_backslash (fillTemplate_no_backslash conv hc)
  simp only [get_svg_tagE, hw, hh, hvb, hs, hf, Option.some_bind, Option.map_some',
    Option.some.injEq]
  rfl

/-! Newline freeness of the replacement texts, and line structure of the
transformed output. -/

theorem widthTemplate_no_nl (conv : SvgCodeToHtmlConverter) :
    '\n' ∉ widthTemplate conv := by
  intro hmem
  unfold widthTemplate at hmem
  rcases List.mem_append.mp hmem with h | h
  swap
  · exact absurd h (by decide)
  rcases List.mem_append.mp h with h | h
  swap
  · exact (int_toString_safe conv.width '\n' h).1 rfl
  rcases List.mem_append.mp h with h | h
  · exact absurd h (by decide)
  · exact absurd h (by decide)

theorem heightTemplate_no_nl (conv : SvgCodeToHtmlConverter) :
    '\n' ∉ heightTemplate conv := by
  intro hmem
  unfold heightTemplate at hmem
  rcases List.mem_append.mp hmem with h | h
  swap
  · exact absurd h (by decide)
  rcases List.mem_append.mp h with h | h
  swap
  · exact (int_toString_safe conv.height '\n' h).1 rfl
  rcases List.mem_append.mp h with h | h
  · exact absurd h (by decide)
  · exact absurd h (by decide)

theorem viewBoxTemplate_no_nl (conv : SvgCodeToHtmlConverter)
    (hv : '\n' ∉ conv.view_box.data) : '\n' ∉ viewBoxTemplate conv := by
  intro hmem
  unfold viewBoxTemplate at hmem
  rcases List.mem_append.mp hmem with h | h
  swap
  · exact absurd h (by decide)
  rcases List.mem_append.mp h with h | h
  swap
  · exact hv h
  rcases List.mem_append.mp h with h | h
  · exact absurd h (by decide)
  · exact absurd h (by decide)

theorem strokeTemplate_no_nl (conv : SvgCodeToHtmlConverter)
    (hc : '\n' ∉ conv.hex_color.data) : '\n' ∉ strokeTemplate conv := by
  intro hmem
  unfold strokeTemplate at hmem
  rcases List.mem_append.mp hmem with h | h
  swap
  · exact absurd h (by decide)
  rcases List.mem_append.mp h with h | h
  swap
  · exact hc h
  rcases List.mem_append.mp h with h | h
  · exact absurd h (by decide)
  · exact absurd h (by decide)

theorem fillTemplate_no_nl (conv : SvgCodeToHtmlConverter)
    (hc : '\n' ∉ conv.hex_color.data) : '\n' ∉ fillTemplate conv := by
  intro hmem
  unfold fillTemplate at hmem
  rcases List.mem_append.mp hmem with h | h
  swap
  · exact absurd h (by decide)
  rcases List.mem_append.mp h with h | h
  swap
  · exact hc h
  rcases List.mem_append.mp h with h | h
  · exact absurd h (by decide)
  · exact absurd h (by decide)

theorem reSub_no_nl {m : List Char → Option Nat} {rep s : List Char}
    (hs : '\n' ∉ s) (hrep : '\n' ∉ rep) : '\n' ∉ reSub m rep s := by
  intro hmem
  rcases reSub_mem '\n' hmem with h | h
  · exact hs h
  · exact hrep h

theorem lineTransform_no_nl (conv : SvgCodeToHtmlConverter)
    (hc : '\n' ∉ conv.hex_color.data) (hv : '\n' ∉ conv.view_box.data)
    {row : List Char} (hrow : '\n' ∉ row) : '\n' ∉ lineTransform conv row := by
  unfold lineTransform changeFillL changeStrokeL changeSvgTagL viewBoxSubL heightSubL
    widthSubL clearSvgL
  apply reSub_no_nl _ (fillTemplate_no_nl conv hc)
  apply reSub_no_nl _ (strokeTemplate_no_nl conv hc)
  apply reSub_no_nl _ (viewBoxTemplate_no_nl conv hv)
  apply reSub_no_nl _ (heightTemplate_no_nl conv)
  apply reSub_no_nl _ (widthTemplate_no_nl conv)
  apply reSub_no_nl _ (by simp)
  apply reSub_no_nl hrow (by simp)

theorem transform_lines (conv : SvgCodeToHtmlConverter)
    (hc : '\n' ∉ conv.hex_color.data) (hv : '\n' ∉ conv.view_box.data) :
    splitLines (get_svg_tag conv).data =
      (splitLines conv.svg_code.data).map (lineTransform conv) := by
  rw [get_svg_tag_eq_map]
  apply splitLines_joinLines
  · intro hmap
    exact splitLines_ne_nil _ (List.map_eq_nil_iff.mp hmap)
  · intro l hl
    rcases List.mem_map.mp hl with ⟨row, hrow, rfl⟩
    exact lineTransform_no_nl conv hc hv (mem_splitLines_no_nl _ row hrow)

/-! Idempotence machinery for the color substitutions: with a configured
color of hash-word form, the replacement text is itself a maximal match of
the pattern, so a second scan replaces it by itself, and a position at
which the first scan failed still fails after the rest of the line has
been rewritten. -/

/-- The condition checked by the hash-attribute matcher after its fixed
prefix: the greedy word run is followed by a closing double quote. -/
def quoteAfterRun (t : List Char) : Bool :=
  headIs '"' (t.drop (t.takeWhile isWordChar).length)

/-- The full tail condition of the hash-attribute matcher: a nonempty word
run followed by a closing double quote. -/
def tailOK (t : List Char) : Bool :=
  ((t.takeWhile isWordChar).length != 0) && quoteAfterRun t

theorem attrHashMatch_isSome_iff {name s : List Char} :
    (attrHashMatch name s).isSome = true ↔
      ((name ++ ['=', '"', '#']).isPrefixOf s = true ∧
        tailOK (s.drop (name.length + 3)) = true) := by
  unfold attrHashMatch tailOK quoteAfterRun
  by_cases hpre : (name ++ ['=', '"', '#']).isPrefixOf s = true
  · rw [if_pos hpre]
    by_cases hn : ((s.drop (name.length + 3)).takeWhile isWordChar).length = 0
    · rw [if_pos hn]
      simp [hpre, hn]
    · rw [if_neg hn]
      by_cases hq : headIs '"' ((s.drop (name.length + 3)).drop
          ((s.drop (name.length + 3)).takeWhile isWordChar).length) = true
      · rw [if_pos hq]
        rw [List.drop_drop] at hq
        simp [hpre, hn, hq]
      · rw [if_neg hq]
        simp only [Bool.not_eq_true] at hq
        rw [List.drop_drop] at hq
        simp [hpre, hn, hq]
  · rw [if_neg hpre]
    simp [hpre]

theorem attrHashMatch_none_of_not {name s : List Char}
    (h : ¬ ((name ++ ['=', '"', '#']).isPrefixOf s = true ∧
        tailOK (s.drop (name.length + 3)) = true)) :
    attrHashMatch name s = none := by
  cases hm : attrHashMatch name s with
  | none => rfl
  | some k =>
    exact absurd (attrHashMatch_isSome_iff.mp (by simp [hm])) h

theorem attrHashMatch_tailOK {name s : List Char} {k : Nat}
    (hm : attrHashMatch name s = some k) :
    (name ++ ['=', '"', '#']).isPrefixOf s = true ∧
      tailOK (s.drop (name.length + 3)) = true :=
  attrHashMatch_isSome_iff.mp (by simp [hm])

theorem quoteAfterRun_cons_word {c : Char} {t : List Char} (hc : isWordChar c = true) :
    quoteAfterRun (c :: t) = quoteAfterRun t := by
  unfold quoteAfterRun
  rw [List.takeWhile_cons, if_pos hc]
  simp

theorem quoteAfterRun_cons_nonword {c : Char} {t : List Char} (hc : isWordChar c = false) :
    quoteAfterRun (c :: t) = (c == '"') := by
  unfold quoteAfterRun
  rw [List.takeWhile_cons, if_neg (by simp [hc])]
  simp [headIs]

theorem tailOK_cons_word {c : Char} {t : List Char} (hc : isWordChar c = true) :
    tailOK (c :: t) = quoteAfterRun t := by
  unfold tailOK
  rw [List.takeWhile_cons, if_pos hc, quoteAfterRun_cons_word hc]
  simp

theorem tailOK_cons_nonword {c : Char} {t : List Char} (hc : isWordChar c = false) :
    tailOK (c :: t) = false := by
  unfold tailOK
  rw [List.takeWhile_cons, if_neg (by simp [hc])]
  simp

theorem quoteAfterRun_word_append {u : List Char} {x : Char} (t : List Char)
    (hu : ∀ c ∈ u, isWordChar c = true) (hx : isWordChar x = false) :
    quoteAfterRun (u ++ x :: t) = (x == '"') := by
  induction u with
  | nil => exact quoteAfterRun_cons_nonword hx
  | cons a u ih =>
    rw [List.cons_append, quoteAfterRun_cons_word (hu a (by simp))]
    exact ih (fun c hc => hu c (by simp [hc]))

theorem tailOK_word_append {u : List Char} {x : Char} (t : List Char) (hne : u ≠ [])
    (hu : ∀ c ∈ u, isWordChar c = true) (hx : isWordChar x = false) :
    tailOK (u ++ x :: t) = (x == '"') := by
  cases u with
  | nil => exact absurd rfl hne
  | cons a u =>
    rw [List.cons_append, tailOK_cons_word (hu a (by simp))]
    exact quoteAfterRun_word_append t (fun c hc => hu c (by simp [hc])) hx

/-- Along any scan whose replacement text starts with a nonempty word run
followed by an equals sign, a failing tail condition keeps failing. -/
theorem out_tail_preserve {m : List Char → Option Nat} {rep name rest : List Char}
    (hname_ne : name ≠ []) (hname_w : ∀ c ∈ name, isWordChar c = true)
    (hrep : rep = name ++ '=' :: rest) :
    ∀ {s o : List Char}, Out m rep s o →
      (quoteAfterRun s = false → quoteAfterRun o = false) ∧
      (tailOK s = false → tailOK o = false) := by
  intro s o h
  induction h with
  | nil => exact ⟨fun h' => h', fun h' => h'⟩
  | repl hm hout ih =>
    rename_i c cs o' k
    constructor
    · intro _
      have ho : rep ++ o' = name ++ '=' :: (rest ++ o') := by simp [hrep]
      rw [ho, quoteAfterRun_word_append _ hname_w (by decide)]
      decide
    · intro _
      have ho : rep ++ o' = name ++ '=' :: (rest ++ o') := by simp [hrep]
      rw [ho, tailOK_word_append _ hname_ne hname_w (by decide)]
      decide
  | keep hm hout ih =>
    rename_i c cs o'
    by_cases hc : isWordChar c = true
    · constructor
      · intro hs
        rw [quoteAfterRun_cons_word hc] at hs ⊢
        exact ih.1 hs
      · intro hs
        rw [tailOK_cons_word hc] at hs ⊢
        exact ih.1 hs
    · have hc' : isWordChar c = false := by
        cases hcc : isWordChar c
        · rfl
        · exact absurd hcc hc
      constructor
      · intro hs
        rw [quoteAfterRun_cons_nonword hc'] at hs ⊢
        exact hs
      · intro _
        rw [tailOK_cons_nonword hc']

theorem take_append_le : ∀ {n : Nat} {a b : List Char}, n ≤ a.length →
    (a ++ b).take n = a.take n := by
  intro n
  induction n with
  | zero => intro a b _; simp
  | succ n ih =>
    intro a b h
    cases a with
    | nil => simp at h
    | cons x a =>
      simp only [List.cons_append, List.take_succ_cons]
      rw [ih (by simpa using h)]

theorem isPrefixOf_append_left : ∀ {p a b : List Char}, p.isPrefixOf (a ++ b) = true →
    p.length ≤ a.length → p.isPrefixOf a = true := by
  intro p
  induction p with
  | nil => intro a b _ _; simp [List.isPrefixOf]
  | cons x p ih =>
    intro a b hp hl
    cases a with
    | nil => simp at hl
    | cons y a =>
      simp only [List.cons_append, List.isPrefixOf, Bool.and_eq_true] at hp ⊢
      exact ⟨hp.1, ih hp.2 (by simpa using hl)⟩

/-- Walking a suffix of the fixed pattern prefix through a scan output:
since no nontrivial shift of the pattern prefix matches the front of the
replacement text, the walked characters must all be kept characters, and
the scan of the remainders is reached intact. -/
theorem out_walk {m : List Char → Option Nat} {rep pre : List Char}
    (hrep : ∃ rest, rep = pre ++ rest)
    (hshift : ∀ j, j < pre.length → 1 ≤ j →
      pre.drop j ≠ pre.take (pre.length - j)) :
    ∀ {s o : List Char}, Out m rep s o → ∀ j, 1 ≤ j →
      (pre.drop j).isPrefixOf o = true →
      (pre.drop j).isPrefixOf s = true ∧
        Out m rep (s.drop (pre.length - j)) (o.drop (pre.length - j)) := by
  intro s o h
  induction h with
  | nil =>
    intro j hj hp
    have hdj : pre.drop j = [] := by
      cases hd : pre.drop j with
      | nil => rfl
      | cons a l => rw [hd] at hp; exact absurd hp (by simp [List.isPrefixOf])
    have hj2 : pre.length ≤ j := by
      by_contra hlt
      have := List.length_drop j pre
      rw [hdj] at this
      simp at this
      omega
    have h0 : pre.length - j = 0 := by omega
    rw [h0, hdj]
    exact ⟨by simp [List.isPrefixOf], Out.nil⟩
  | repl hm hout ih =>
    rename_i c cs o' k
    intro j hj hp
    by_cases hjL : j < pre.length
    · exfalso
      rcases hrep with ⟨rest, hr⟩
      have hlen : (pre.drop j).length ≤ rep.length := by
        rw [hr]
        simp [List.length_drop]
        omega
      have hpre1 : (pre.drop j).isPrefixOf rep = true :=
        isPrefixOf_append_left hp hlen
      rcases isPrefixOf_decomp.mp hpre1 with ⟨t, ht⟩
      have h1 : rep.take (pre.length - j) = pre.drop j := by
        rw [ht]
        exact List.take_left' (by simp [List.length_drop])
      have h2 : rep.take (pre.length - j) = pre.take (pre.length - j) := by
        rw [hr]
        exact take_append_le (by omega)
      exact hshift j hjL hj (by rw [← h1, h2])
    · have hdj : pre.drop j = [] := List.drop_eq_nil_of_le (by omega)
      have h0 : pre.length - j = 0 := by omega
      rw [h0, hdj]
      exact ⟨by simp [List.isPrefixOf], by simpa using Out.repl hm hout⟩
  | keep hm hout ih =>
    rename_i c cs o'
    intro j hj hp
    by_cases hjL : j < pre.length
    · have hcons := List.drop_eq_getElem_cons hjL
      rw [hcons] at hp
      simp only [List.isPrefixOf, Bool.and_eq_true, beq_iff_eq] at hp
      rcases hp with ⟨hcj, hp2⟩
      rcases ih (j + 1) (by omega) hp2 with ⟨hps, hout2⟩
      constructor
      · rw [hcons]
        simp only [List.isPrefixOf, Bool.and_eq_true, beq_iff_eq]
        exact ⟨hcj, hps⟩
      · have hL : pre.length - j = (pre.length - (j + 1)) + 1 := by omega
        rw [hL]
        simp only [List.drop_succ_cons]
        exact hout2
    · have hdj : pre.drop j = [] := List.drop_eq_nil_of_le (by omega)
      have h0 : pre.length - j = 0 := by omega
      rw [h0, hdj]
      exact ⟨by simp [List.isPrefixOf], by simpa using Out.keep hm hout⟩

/-- A position at which the hash-attribute scan failed still fails after
the tail of the line has been processed by the same substitution. -/
theorem attrHash_scan_none {name w : List Char}
    (hname_ne : name ≠ []) (hname_w : ∀ c ∈ name, isWordChar c = true)
    (hshift : ∀ j, j < (name ++ ['=', '"', '#']).length → 1 ≤ j →
      (name ++ ['=', '"', '#']).drop j ≠
        (name ++ ['=', '"', '#']).take ((name ++ ['=', '"', '#']).length - j))
    {c : Char} {cs o : List Char}
    (hout : Out (attrHashMatch name) (name ++ ['=', '"', '#'] ++ w ++ ['"']) cs o)
    (hm : attrHashMatch name (c :: cs) = none) :
    attrHashMatch name (c :: o) = none := by
  apply attrHashMatch_none_of_not
  rintro ⟨hpre, htail⟩
  cases name with
  | nil => exact absurd rfl hname_ne
  | cons n0 ntail =>
    have hpre' : (n0 :: (ntail ++ ['=', '"', '#'])).isPrefixOf (c :: o) = true := by
      simpa using hpre
    simp only [List.isPrefixOf, Bool.and_eq_true, beq_iff_eq] at hpre'
    rcases hpre' with ⟨hc0, hpo⟩
    have hpo1 : ((n0 :: ntail ++ ['=', '"', '#']).drop 1).isPrefixOf o = true := by
      simpa using hpo
    have hwalk := @out_walk (attrHashMatch (n0 :: ntail))
      ((n0 :: ntail) ++ ['=', '"', '#'] ++ w ++ ['"'])
      (n0 :: ntail ++ ['=', '"', '#'])
      ⟨w ++ ['"'], by simp⟩ hshift cs o hout 1 (Nat.le_refl 1) hpo1
    rcases hwalk with ⟨hpcs, hout2⟩
    have hL : (n0 :: ntail ++ ['=', '"', '#']).length - 1 = ntail.length + 3 := by
      simp
    rw [hL] at hout2
    have hpccs : ((n0 :: ntail) ++ ['=', '"', '#']).isPrefixOf (c :: cs) = true := by
      simp only [List.cons_append, List.isPrefixOf, Bool.and_eq_true, beq_iff_eq]
      constructor
      · exact hc0
      · simpa using hpcs
    have htailcs : tailOK ((c :: cs).drop ((n0 :: ntail).length + 3)) = false := by
      cases htc : tailOK ((c :: cs).drop ((n0 :: ntail).length + 3)) with
      | false => rfl
      | true =>
        have hsome : (attrHashMatch (n0 :: ntail) (c :: cs)).isSome = true :=
          attrHashMatch_isSome_iff.mpr ⟨hpccs, htc⟩
        rw [hm] at hsome
        exact absurd hsome (by simp)
    have hdropcs : (c :: cs).drop ((n0 :: ntail).length + 3) = cs.drop (ntail.length + 3) := by
      have hlen1 : (n0 :: ntail).length + 3 = (ntail.length + 3) + 1 := by simp
      rw [hlen1, List.drop_succ_cons]
    rw [hdropcs] at htailcs
    have hpres := @out_tail_preserve (attrHashMatch (n0 :: ntail))
      ((n0 :: ntail) ++ ['=', '"', '#'] ++ w ++ ['"'])
      (n0 :: ntail) ('"' :: '#' :: (w ++ ['"'])) hname_ne
      (fun x hx => hname_w x (by simp [hx]))
      (by simp) (cs.drop (ntail.length + 3)) (o.drop (ntail.length + 3)) hout2
    have htailo : tailOK (o.drop (ntail.length + 3)) = false := hpres.2 htailcs
    have hdropo : (c :: o).drop ((n0 :: ntail).length + 3) = o.drop (ntail.length + 3) := by
      have hlen2 : (n0 :: ntail).length + 3 = (ntail.length + 3) + 1 := by simp
      rw [hlen2, List.drop_succ_cons]
    rw [hdropo, htailo] at htail
    exact absurd htail (by simp)

/-- The replacement text of the color substitutions with a hash-word color
is itself a maximal match of the pattern, whatever follows it. -/
theorem attrHash_rep_match {name w : List Char} (hw_ne : w ≠ [])
    (hw_w : ∀ c ∈ w, isWordChar c = true) (t : List Char) :
    attrHashMatch name ((name ++ ['=', '"', '#'] ++ w ++ ['"']) ++ t) =
      some (name.length + w.length + 4) := by
  have hshape : (name ++ ['=', '"', '#'] ++ w ++ ['"']) ++ t =
      name ++ '=' :: '"' :: '#' :: (w ++ '"' :: t) := by simp
  rw [hshape]
  exact attrHashMatch_some_iff.mpr ⟨w, t, rfl, hw_ne, hw_w, rfl⟩

/-- Idempotence of a single hash-attribute substitution whose replacement
color has the hash-word form. -/
theorem reSub_attrHash_idem {name w : List Char}
    (hname_ne : name ≠ []) (hname_w : ∀ c ∈ name, isWordChar c = true)
    (hshift : ∀ j, j < (name ++ ['=', '"', '#']).length → 1 ≤ j →
      (name ++ ['=', '"', '#']).drop j ≠
        (name ++ ['=', '"', '#']).take ((name ++ ['=', '"', '#']).length - j))
    (hw_ne : w ≠ []) (hw_w : ∀ c ∈ w, isWordChar c = true) :
    ∀ s : List Char,
      reSub (attrHashMatch name) (name ++ ['=', '"', '#'] ++ w ++ ['"'])
        (reSub (attrHashMatch name) (name ++ ['=', '"', '#'] ++ w ++ ['"']) s) =
      reSub (attrHashMatch name) (name ++ ['=', '"', '#'] ++ w ++ ['"']) s := by
  suffices hgen : ∀ n s, s.length ≤ n →
      reSub (attrHashMatch name) (name ++ ['=', '"', '#'] ++ w ++ ['"'])
        (reSub (attrHashMatch name) (name ++ ['=', '"', '#'] ++ w ++ ['"']) s) =
      reSub (attrHashMatch name) (name ++ ['=', '"', '#'] ++ w ++ ['"']) s by
    exact fun s => hgen s.length s (Nat.le_refl _)
  intro n
  induction n with
  | zero =>
    intro s hs
    have hnil : s = [] := List.length_eq_zero.mp (Nat.le_zero.mp hs)
    subst hnil
    rfl
  | succ n ih =>
    intro s hs
    cases s with
    | nil => rfl
    | cons c cs =>
      have hcs : cs.length ≤ n := by simp at hs; omega
      cases hm : attrHashMatch name (c :: cs) with
      | none =>
        rw [reSub_cons_of_none hm]
        have hm2 := attrHash_scan_none hname_ne hname_w hshift
          (out_reSub (attrHashMatch name) (name ++ ['=', '"', '#'] ++ w ++ ['"']) cs) hm
        rw [reSub_cons_of_none hm2]
        rw [ih cs hcs]
      | some k =>
        rw [reSub_cons_of_match hm]
        cases name with
        | nil => exact absurd rfl hname_ne
        | cons n0 ntail =>
          have hdlen : (cs.drop (k - 1)).length ≤ n := by
            have : (cs.drop (k - 1)).length ≤ cs.length := by simp [List.length_drop]
            omega
          have hZ := ih (cs.drop (k - 1)) hdlen
          have hre : ((n0 :: ntail) ++ ['=', '"', '#'] ++ w ++ ['"']) ++
              reSub (attrHashMatch (n0 :: ntail))
                ((n0 :: ntail) ++ ['=', '"', '#'] ++ w ++ ['"']) (cs.drop (k - 1)) =
              n0 :: ((ntail ++ ['=', '"', '#'] ++ w ++ ['"']) ++
                reSub (attrHashMatch (n0 :: ntail))
                  ((n0 :: ntail) ++ ['=', '"', '#'] ++ w ++ ['"']) (cs.drop (k - 1))) := by
            simp
          rw [hre]
          have hmatch : attrHashMatch (n0 :: ntail)
              (n0 :: ((ntail ++ ['=', '"', '#'] ++ w ++ ['"']) ++
                reSub (attrHashMatch (n0 :: ntail))
                  ((n0 :: ntail) ++ ['=', '"', '#'] ++ w ++ ['"']) (cs.drop (k - 1)))) =
              some ((n0 :: ntail).length + w.length + 4) := by
            rw [← hre]
            exact attrHash_rep_match hw_ne hw_w _
          rw [reSub_cons_of_match hmatch]
          have hdropZ : ((ntail ++ ['=', '"', '#'] ++ w ++ ['"']) ++
              reSub (attrHashMatch (n0 :: ntail))
                ((n0 :: ntail) ++ ['=', '"', '#'] ++ w ++ ['"']) (cs.drop (k - 1))).drop
                ((n0 :: ntail).length + w.length + 4 - 1) =
              reSub (attrHashMatch (n0 :: ntail))
                ((n0 :: ntail) ++ ['=', '"', '#'] ++ w ++ ['"']) (cs.drop (k - 1)) := by
            apply List.drop_left'
            simp
            omega
          rw [hdropZ, hZ]
          exact hre.symm

/-- With a configured color of hash-word form, the stroke substitution is
idempotent on every line. -/
theorem changeStrokeL_idem (conv : SvgCodeToHtmlConverter) {w : List Char}
    (hcolor : conv.hex_color.data = '#' :: w) (hw_ne : w ≠ [])
    (hw_w : ∀ c ∈ w, isWordChar c = true) (s : List Char) :
    changeStrokeL conv (changeStrokeL conv s) = changeStrokeL conv s := by
  unfold changeStrokeL strokeTemplate
  rw [hcolor]
  have hshape : strokeName ++ ['=', '"'] ++ ('#' :: w) ++ ['"'] =
      strokeName ++ ['=', '"', '#'] ++ w ++ ['"'] := by simp
  rw [hshape]
  exact reSub_attrHash_idem (by decide) (by decide) (by decide) hw_ne hw_w s

/-- With a configured color of hash-word form, the fill substitution is
idempotent on every line. -/
theorem changeFillL_idem (conv : SvgCodeToHtmlConverter) {w : List Char}
    (hcolor : conv.hex_color.data = '#' :: w) (hw_ne : w ≠ [])
    (hw_w : ∀ c ∈ w, isWordChar c = true) (s : List Char) :
    changeFillL conv (changeFillL conv s) = changeFillL conv s := by
  unfold changeFillL fillTemplate
  rw [hcolor]
  have hshape : fillName ++ ['=', '"'] ++ ('#' :: w) ++ ['"'] =
      fillName ++ ['=', '"', '#'] ++ w ++ ['"'] := by simp
  rw [hshape]
  exact reSub_attrHash_idem (by decide) (by decide) (by decide) hw_ne hw_w s

/-! Substring occurrence test and the no-match identity of each stage. -/

/-- Whether pat occurs as a contiguous substring of l. -/
def hasSub (pat : List Char) : List Char → Bool
  | [] => pat.isEmpty
  | c :: cs => pat.isPrefixOf (c :: cs) || hasSub pat cs

/-- If every match of m starts with the pattern prefix pat and pat occurs
nowhere in l, then the scan of l finds no match at all. -/
theorem noMatchAll_of_no_hasSub {m : List Char → Option Nat} {pat l : List Char}
    (hm : ∀ t k, m t = some k → pat.isPrefixOf t = true)
    (hpat : pat ≠ []) (h : hasSub pat l = false) : noMatchAll m l = true := by
  induction l with
  | nil =>
    unfold noMatchAll
    cases hm0 : m [] with
    | none => simp
    | some k =>
      rcases isPrefixOf_decomp.mp (hm [] k hm0) with ⟨t, ht⟩
      exact absurd (List.append_eq_nil.mp ht.symm).1 hpat
  | cons c cs ih =>
    unfold noMatchAll
    unfold hasSub at h
    rw [Bool.or_eq_false_iff] at h
    rw [ih h.2]
    cases hm0 : m (c :: cs) with
    | none => simp
    | some k =>
      have hp := hm _ _ hm0
      rw [h.1] at hp
      exact absurd hp (by simp)

theorem litMatch_starts {pat t : List Char} {k : Nat} (h : litMatch pat t = some k) :
    pat.isPrefixOf t = true := by
  unfold litMatch at h
  by_cases hp : pat.isPrefixOf t = true
  · exact hp
  · rw [if_neg hp] at h; exact absurd h (by simp)

theorem numAttrMatch_starts {name t : List Char} {k : Nat}
    (h : numAttrMatch name t = some k) : (name ++ ['=', '"']).isPrefixOf t = true := by
  rcases numAttrMatch_some_iff.mp h with ⟨ds, r, rfl, _, _, _⟩
  exact isPrefixOf_decomp.mpr ⟨ds ++ '"' :: r, by simp⟩

theorem attrHashMatch_starts {name t : List Char} {k : Nat}
    (h : attrHashMatch name t = some k) : (name ++ ['=', '"', '#']).isPrefixOf t = true :=
  (attrHashMatch_tailOK h).1

theorem viewBoxMatch_starts {t : List Char} {k : Nat}
    (h : viewBoxMatch t = some k) : (viewBoxName ++ ['=', '"']).isPrefixOf t = true := by
  rcases viewBoxMatch_some_iff.mp h with ⟨t1, t2, t3, t4, r, rfl, _⟩
  exact isPrefixOf_decomp.mpr
    ⟨t1 ++ ' ' :: (t2 ++ ' ' :: (t3 ++ ' ' :: (t4 ++ '"' :: r))), by simp⟩

theorem transform_eq_map (s : String) (cfg : TransformConfig) :
    transform s cfg =
      ⟨joinLines ((splitLines s.data).map (lineTransform (mkConv s cfg)))⟩ :=
  get_svg_tag_eq_map (mkConv s cfg)

theorem lineTransform_id (conv : SvgCodeToHtmlConverter) (l : List Char)
    (h1 : noMatchAll (litMatch colonSvg) l = true)
    (h2 : noMatchAll (litMatch svgColon) l = true)
    (h3 : noMatchAll (numAttrMatch widthName) l = true)
    (h4 : noMatchAll (numAttrMatch heightName) l = true)
    (h5 : noMatchAll viewBoxMatch l = true)
    (h6 : noMatchAll (attrHashMatch strokeName) l = true)
    (h7 : noMatchAll (attrHashMatch fillName) l = true) :
    lineTransform conv l = l := by
  unfold lineTransform changeFillL changeStrokeL changeSvgTagL viewBoxSubL heightSubL widthSubL clearSvgL
  rw [reSub_of_noMatchAll h1, reSub_of_noMatchAll h2, reSub_of_noMatchAll h3,
      reSub_of_noMatchAll h4, reSub_of_noMatchAll h5, reSub_of_noMatchAll h6,
      reSub_of_noMatchAll h7]

/-! Claim theorems. -/

/-- C1 counterexample: the claim quantifies over every TransformConfig, but
with a configured color that contains a line-feed character the replaced
value introduces a new line, so the output has more lines than the input. -/
theorem C1_line_count_cex :
    numLines (transform "stroke=\"#0\"" ⟨"a\nb", 20, 20, "0 0 20 20"⟩) ≠
      numLines "stroke=\"#0\"" := by decide

/-- C1 (amended): for every input string and every configuration whose
color and viewBox contain neither a line-feed character nor a backslash,
the conversion with re.sub's template processing modelled explicitly
returns the value of transform, transform has the same number of lines as
its input, and the lines correspond positionally: the list of output
lines is exactly the map of the per-line pipeline over the list of input
lines, so no lines are added, removed or reordered.  A line feed in the
color adds lines directly, and a backslash-n escape in the color is
translated by the template processing into a line feed that also adds
lines, so both restrictions are needed. -/
theorem C1_line_count (s : String) (cfg : TransformConfig)
    (hc : '\n' ∉ cfg.color.data) (hv : '\n' ∉ cfg.viewBox.data)
    (hcb : '\\' ∉ cfg.color.data) (hvb : '\\' ∉ cfg.viewBox.data) :
    get_svg_tagE (mkConv s cfg) = some (transform s cfg) ∧
    numLines (transform s cfg) = numLines s ∧
      splitLines (transform s cfg).data =
        (splitLines s.data).map (lineTransform (mkConv s cfg)) := by
  have h := transform_lines (mkConv s cfg) hc hv
  refine ⟨get_svg_tagE_of_no_backslash (mkConv s cfg) hcb hvb, ?_, h⟩
  unfold numLines
  have heq : (transform s cfg).data = (get_svg_tag (mkConv s cfg)).data := rfl
  rw [heq, h]
  simp [mkConv]

theorem C1_line_count_witness :
    get_svg_tagE (mkConv "a\nstroke=\"#0\"" ⟨"#fff", 20, 20, "0 0 20 20"⟩) =
      some (transform "a\nstroke=\"#0\"" ⟨"#fff", 20, 20, "0 0 20 20"⟩) ∧
    numLines (transform "a\nstroke=\"#0\"" ⟨"#fff", 20, 20, "0 0 20 20"⟩) =
      numLines "a\nstroke=\"#0\"" ∧
      splitLines (transform "a\nstroke=\"#0\"" ⟨"#fff", 20, 20, "0 0 20 20"⟩).data =
        (splitLines ("a\nstroke=\"#0\"" : String).data).map
          (lineTransform (mkConv "a\nstroke=\"#0\"" ⟨"#fff", 20, 20, "0 0 20 20"⟩)) :=
  C1_line_count "a\nstroke=\"#0\"" ⟨"#fff", 20, 20, "0 0 20 20"⟩
    (by decide) (by decide) (by decide) (by decide)

/-- C2: transform splits its input on line feeds, sends every line through
the four substitution stages in the fixed order namespace stripping, tag
normalization, stroke substitution, fill substitution, each stage feeding
the next, and rejoins the per-line results with line-feed separators. -/
theorem C2_pipeline (s : String) (cfg : TransformConfig) :
    transform s cfg = ⟨joinLines ((splitLines s.data).map (fun line =>
      changeFillL (mkConv s cfg) (changeStrokeL (mkConv s cfg)
        (changeSvgTagL (mkConv s cfg) (clearSvgL line)))))⟩ :=
  get_svg_tag_eq_map (mkConv s cfg)

/-- C4 counterexample: deleting the matched occurrences can splice together
a new occurrence, so the output of the stripping stage can still contain
the colon-svg substring. -/
theorem C4_strip_cex :
    clearSvgL (":svsvg:g").data = (":svg").data ∧
      hasSub (":svg").data (clearSvgL (":svsvg:g").data) = true := by
  refine ⟨by decide, by decide⟩

/-- C4 (amended): stage 1 performs one leftmost non-overlapping deletion
pass for each of the two patterns, colon-svg first, svg-colon second; on
any line containing neither substring the stage is the identity.  The
deletions can splice remaining characters into new occurrences, so the
output is not in general free of the two substrings. -/
theorem C4_strip (l : List Char)
    (h1 : hasSub (":svg").data l = false)
    (h2 : hasSub ("svg:").data l = false) :
    clearSvgL l = l := by
  unfold clearSvgL
  have e1 : (":svg").data = colonSvg := rfl
  have e2 : ("svg:").data = svgColon := rfl
  rw [e1] at h1
  rw [e2] at h2
  rw [reSub_of_noMatchAll
    (noMatchAll_of_no_hasSub (fun t k h => litMatch_starts h) (by decide) h1)]
  rw [reSub_of_noMatchAll
    (noMatchAll_of_no_hasSub (fun t k h => litMatch_starts h) (by decide) h2)]

theorem C4_strip_witness :
    clearSvgL ("<rect x=\"1\"/>").data = ("<rect x=\"1\"/>").data :=
  C4_strip ("<rect x=\"1\"/>").data (by decide) (by decide)

/-- C6 counterexample: stage 2 rewrites a width attribute on a line that
contains no svg tag at all, so the attribute is not left unchanged. -/
theorem C6_svg_only_cex :
    changeSvgTagL ⟨"", "#fff", 20, 20, "0 0 20 20"⟩ ("<rect width=\"24\"/>").data ≠
      ("<rect width=\"24\"/>").data := by decide

/-- C6 (amended): stage 2 applies its width, height and viewBox rewrites
to matching attributes anywhere on the line, with no check for an
enclosing svg tag: lines carrying the attributes on other tags are
rewritten all the same. -/
theorem C6_no_tag_guard :
    changeSvgTagL ⟨"", "#fff", 77, 20, "0 0 20 20"⟩ ("<rect width=\"24\"/>").data =
      ("<rect width=\"77\"/>").data ∧
    changeSvgTagL ⟨"", "#fff", 20, 33, "0 0 20 20"⟩ ("<circle height=\"9\"/>").data =
      ("<circle height=\"33\"/>").data ∧
    changeSvgTagL ⟨"", "#fff", 20, 20, "1 2 3 4"⟩ ("<g viewBox=\"0 0 24 24\"/>").data =
      ("<g viewBox=\"1 2 3 4\"/>").data := by
  refine ⟨by decide, by decide, by decide⟩

/-- C5 counterexample: the claim quantifies over every configured color,
but re.sub processes its replacement template before substituting: a
color of backslash-one is an invalid group reference and makes the
conversion raise re.error even on the example line whose stroke and fill
values carry no hash, so that line is not left untouched; and a color of
backslash-n yields a replacement containing a real line feed, not the
two-character configured text. -/
theorem C5_color_subst_cex :
    get_svg_tagE ⟨"<path stroke=\"none\" fill=\"currentColor\"/>", "\\1", 20, 20,
        "0 0 20 20"⟩ = none ∧
    parseTemplate (strokeTemplate ⟨"", "\\n", 20, 20, "0 0 20 20"⟩) =
      some ("stroke=\"\n\"").data ∧
    ("stroke=\"\n\"").data ≠ strokeTemplate ⟨"", "\\n", 20, 20, "0 0 20 20"⟩ := by
  refine ⟨by decide, by decide, by decide⟩

/-- C5 (amended): the stroke and fill stages only touch attributes of the
exact hash-quoted form: a line with no occurrence of the hash-prefixed
stroke or fill opening is left untouched by the corresponding stage; for
the concrete color of the claim the replacement templates are unchanged
by re.sub's template processing and the example line is rewritten to the
configured color on both attributes; and for every configuration whose
color and viewBox contain no backslash the conversion, with the template
processing modelled explicitly, returns the example line with non-hash
stroke and fill values exactly unchanged.  Over every configuration the
original claim fails: the template processing translates or rejects
backslash escapes in the configured color instead of inserting it
verbatim. -/
theorem C5_color_subst :
    (∀ (conv : SvgCodeToHtmlConverter) (l : List Char),
      (hasSub ("stroke=\"#").data l = false → changeStrokeL conv l = l) ∧
      (hasSub ("fill=\"#").data l = false → changeFillL conv l = l)) ∧
    (∀ conv : SvgCodeToHtmlConverter, conv.hex_color = "#FF0000" →
      parseTemplate (strokeTemplate conv) = some (strokeTemplate conv) ∧
      parseTemplate (fillTemplate conv) = some (fillTemplate conv) ∧
      changeFillL conv (changeStrokeL conv
          ("<path stroke=\"#000000\" fill=\"#ffffff\"/>").data) =
        ("<path stroke=\"#FF0000\" fill=\"#FF0000\"/>").data) ∧
    (∀ cfg : TransformConfig, '\\' ∉ cfg.color.data → '\\' ∉ cfg.viewBox.data →
      get_svg_tagE (mkConv "<path stroke=\"none\" fill=\"currentColor\"/>" cfg) =
        some (transform "<path stroke=\"none\" fill=\"currentColor\"/>" cfg) ∧
      transform "<path stroke=\"none\" fill=\"currentColor\"/>" cfg =
        "<path stroke=\"none\" fill=\"currentColor\"/>") := by
  refine ⟨?_, ?_, ?_⟩
  · intro conv l
    constructor
    · intro h1
      have e1 : ("stroke=\"#").data = strokeName ++ ['=', '"', '#'] := rfl
      rw [e1] at h1
      exact reSub_of_noMatchAll
        (noMatchAll_of_no_hasSub (fun t k h => attrHashMatch_starts h) (by decide) h1)
    · intro h2
      have e2 : ("fill=\"#").data = fillName ++ ['=', '"', '#'] := rfl
      rw [e2] at h2
      exact reSub_of_noMatchAll
        (noMatchAll_of_no_hasSub (fun t k h => attrHashMatch_starts h) (by decide) h2)
  · intro conv hc
    refine ⟨?_, ?_, ?_⟩
    · unfold strokeTemplate
      rw [hc]
      decide
    · unfold fillTemplate
      rw [hc]
      decide
    · unfold changeFillL changeStrokeL fillTemplate strokeTemplate
      rw [hc]
      decide
  · intro cfg hcb hvb
    constructor
    · exact get_svg_tagE_of_no_backslash
        (mkConv "<path stroke=\"none\" fill=\"currentColor\"/>" cfg) hcb hvb
    · rw [transform_eq_map]
      have hsplit :
          splitLines ("<path stroke=\"none\" fill=\"currentColor\"/>" : String).data =
            [("<path stroke=\"none\" fill=\"currentColor\"/>").data] := by decide
      rw [hsplit, List.map_cons, List.map_nil]
      rw [lineTransform_id (mkConv "<path stroke=\"none\" fill=\"currentColor\"/>" cfg)
        ("<path stroke=\"none\" fill=\"currentColor\"/>").data
        (by decide) (by decide) (by decide) (by decide) (by decide) (by decide) (by decide)]
      rfl

theorem C5_color_subst_witness :
    get_svg_tagE (mkConv "<path stroke=\"none\" fill=\"currentColor\"/>"
        ⟨"#abc", 20, 20, "0 0 20 20"⟩) =
      some (transform "<path stroke=\"none\" fill=\"currentColor\"/>"
        ⟨"#abc", 20, 20, "0 0 20 20"⟩) ∧
    transform "<path stroke=\"none\" fill=\"currentColor\"/>"
        ⟨"#abc", 20, 20, "0 0 20 20"⟩ =
      "<path stroke=\"none\" fill=\"currentColor\"/>" :=
  C5_color_subst.2.2 ⟨"#abc", 20, 20, "0 0 20 20"⟩ (by decide) (by decide)

/-- C7 counterexample: transform is not exception free for every
configuration: a configured color containing a backslash group reference
makes every re.sub call raise re.error (the none result), whatever the
input string is. -/
theorem C7_total_cex :
    get_svg_tagE ⟨"", "\\1", 20, 20, "0 0 20 20"⟩ = none := by decide

/-- C7 (amended): for every configuration whose color and viewBox contain
no backslash, the conversion never raises: with the replacement-template
processing of re.sub modelled explicitly it returns exactly the value of
the total function transform on every input string, the empty string maps
to the empty string, and every substitution whose pattern matches nowhere
on a line is a no-op on that line. -/
theorem C7_total (cfg : TransformConfig)
    (hcb : '\\' ∉ cfg.color.data) (hvb : '\\' ∉ cfg.viewBox.data) :
    (∀ s : String, get_svg_tagE (mkConv s cfg) = some (transform s cfg)) ∧
    transform "" cfg = "" ∧
    (∀ (conv : SvgCodeToHtmlConverter) (l : List Char),
      (noMatchAll (litMatch colonSvg) l = true ∧ noMatchAll (litMatch svgColon) l = true →
        clearSvgL l = l) ∧
      (noMatchAll (numAttrMatch widthName) l = true → widthSubL conv l = l) ∧
      (noMatchAll (numAttrMatch heightName) l = true → heightSubL conv l = l) ∧
      (noMatchAll viewBoxMatch l = true → viewBoxSubL conv l = l) ∧
      (noMatchAll (attrHashMatch strokeName) l = true → changeStrokeL conv l = l) ∧
      (noMatchAll (attrHashMatch fillName) l = true → changeFillL conv l = l)) := by
  refine ⟨?_, ?_, ?_⟩
  · intro s
    exact get_svg_tagE_of_no_backslash (mkConv s cfg) hcb hvb
  · rfl
  · intro conv l
    refine ⟨?_, ?_, ?_, ?_, ?_, ?_⟩
    · rintro ⟨ha, hb⟩
      unfold clearSvgL
      rw [reSub_of_noMatchAll ha, reSub_of_noMatchAll hb]
    · exact fun h => reSub_of_noMatchAll h
    · exact fun h => reSub_of_noMatchAll h
    · exact fun h => reSub_of_noMatchAll h
    · exact fun h => reSub_of_noMatchAll h
    · exact fun h => reSub_of_noMatchAll h

theorem C7_total_witness :
    get_svg_tagE (mkConv "<<not svg>>" ⟨"#fff", 20, 20, "0 0 20 20"⟩) =
      some (transform "<<not svg>>" ⟨"#fff", 20, 20, "0 0 20 20"⟩) :=
  (C7_total ⟨"#fff", 20, 20, "0 0 20 20"⟩ (by decide) (by decide)).1 "<<not svg>>"

/-- C8 counterexample: with a configured color containing a line feed the
claim fails: two inputs with the same second line produce outputs whose
second lines differ, because the replacement on the first line spills a
new line into the output. -/
theorem C8_per_line_cex :
    (splitLines ("stroke=\"#0\"\nx").data)[1]? = (splitLines ("y\nx").data)[1]? ∧
    ¬ ((splitLines (transform "stroke=\"#0\"\nx" ⟨"a\nb", 20, 20, "0 0 20 20"⟩).data)[1]? =
       (splitLines (transform "y\nx" ⟨"a\nb", 20, 20, "0 0 20 20"⟩).data)[1]?) := by
  refine ⟨by decide, by decide⟩

/-- C8 (amended): for every configuration whose color and viewBox contain
neither a line-feed character nor a backslash, the conversion with
re.sub's template processing modelled explicitly returns the value of
transform on both inputs, and each output line depends only on the
corresponding input line and the configuration: inputs agreeing on their
i-th line have outputs agreeing on their i-th line.  A line feed in the
color spills extra lines directly and a backslash-n escape in the color
is translated into a line feed that does the same, so both restrictions
are needed for the line correspondence. -/
theorem C8_per_line (cfg : TransformConfig) (s1 s2 : String) (i : Nat)
    (hc : '\n' ∉ cfg.color.data) (hv : '\n' ∉ cfg.viewBox.data)
    (hcb : '\\' ∉ cfg.color.data) (hvb : '\\' ∉ cfg.viewBox.data)
    (hline : (splitLines s1.data)[i]? = (splitLines s2.data)[i]?) :
    get_svg_tagE (mkConv s1 cfg) = some (transform s1 cfg) ∧
    get_svg_tagE (mkConv s2 cfg) = some (transform s2 cfg) ∧
    (splitLines (transform s1 cfg).data)[i]? =
      (splitLines (transform s2 cfg).data)[i]? := by
  refine ⟨get_svg_tagE_of_no_backslash (mkConv s1 cfg) hcb hvb,
    get_svg_tagE_of_no_backslash (mkConv s2 cfg) hcb hvb, ?_⟩
  have h1 := transform_lines (mkConv s1 cfg) hc hv
  have h2 := transform_lines (mkConv s2 cfg) hc hv
  have heq1 : (transform s1 cfg).data = (get_svg_tag (mkConv s1 cfg)).data := rfl
  have heq2 : (transform s2 cfg).data = (get_svg_tag (mkConv s2 cfg)).data := rfl
  rw [heq1, h1, heq2, h2]
  rw [List.getElem?_map, List.getElem?_map]
  have hsame : lineTransform (mkConv s1 cfg) = lineTransform (mkConv s2 cfg) := rfl
  have hl : (splitLines (mkConv s1 cfg).svg_code.data)[i]? =
      (splitLines (mkConv s2 cfg).svg_code.data)[i]? := hline
  rw [hsame, hl]

theorem C8_per_line_witness :
    get_svg_tagE (mkConv "a\nshared" ⟨"#fff", 20, 20, "0 0 20 20"⟩) =
      some (transform "a\nshared" ⟨"#fff", 20, 20, "0 0 20 20"⟩) ∧
    get_svg_tagE (mkConv "b\nshared" ⟨"#fff", 20, 20, "0 0 20 20"⟩) =
      some (transform "b\nshared" ⟨"#fff", 20, 20, "0 0 20 20"⟩) ∧
    (splitLines (transform "a\nshared" ⟨"#fff", 20, 20, "0 0 20 20"⟩).data)[1]? =
      (splitLines (transform "b\nshared" ⟨"#fff", 20, 20, "0 0 20 20"⟩).data)[1]? :=
  C8_per_line ⟨"#fff", 20, 20, "0 0 20 20"⟩ "a\nshared" "b\nshared" 1
    (by decide) (by decide) (by decide) (by decide) (by decide)

/-- C9: the width and height substitutions fire only on a double-quoted
value of one or more decimal digits and nothing else: a successful match
decomposes exactly into the attribute name, an equals sign, a quote, a
nonempty run of digits and a closing quote, and a line whose width and
height values are decimal-pointed, percent-suffixed, negative or
single-quoted is left unchanged by both substitutions whatever the
configuration is. -/
theorem C9_num_attr :
    (∀ (s : List Char) (k : Nat), numAttrMatch widthName s = some k →
      ∃ ds t, s = widthName ++ '=' :: '"' :: (ds ++ '"' :: t) ∧ ds ≠ [] ∧
        (∀ c ∈ ds, c.isDigit = true) ∧ k = widthName.length + ds.length + 3) ∧
    (∀ (s : List Char) (k : Nat), numAttrMatch heightName s = some k →
      ∃ ds t, s = heightName ++ '=' :: '"' :: (ds ++ '"' :: t) ∧ ds ≠ [] ∧
        (∀ c ∈ ds, c.isDigit = true) ∧ k = heightName.length + ds.length + 3) ∧
    (∀ conv : SvgCodeToHtmlConverter,
      widthSubL conv
          ("<svg width=\"24.5\" width=\"100%\" height=\"-3\" width='24'>").data =
        ("<svg width=\"24.5\" width=\"100%\" height=\"-3\" width='24'>").data ∧
      heightSubL conv
          ("<svg width=\"24.5\" width=\"100%\" height=\"-3\" width='24'>").data =
        ("<svg width=\"24.5\" width=\"100%\" height=\"-3\" width='24'>").data) := by
  refine ⟨?_, ?_, ?_⟩
  · intro s k h
    exact numAttrMatch_some_iff.mp h
  · intro s k h
    exact numAttrMatch_some_iff.mp h
  · intro conv
    exact ⟨reSub_of_noMatchAll (by decide), reSub_of_noMatchAll (by decide)⟩

theorem C9_num_attr_witness :
    ∃ ds t, ("width=\"24\"x").data = widthName ++ '=' :: '"' :: (ds ++ '"' :: t) ∧
      ds ≠ [] ∧ (∀ c ∈ ds, c.isDigit = true) ∧ 10 = widthName.length + ds.length + 3 :=
  C9_num_attr.1 ("width=\"24\"x").data 10 (by decide)

/-- C10: the viewBox substitution fires exactly on a value of four
space-separated tokens, the first two nonempty over digits, dot and
minus, the last two nonempty over digits and dot; consequently the
non-numeric token shape of the first example is replaced by the
configured viewBox while the plus-signed value is never matched. -/
theorem C10_viewbox :
    (∀ (s : List Char) (k : Nat), viewBoxMatch s = some k ↔
      ∃ t1 t2 t3 t4 r,
        s = viewBoxName ++ '=' :: '"' ::
            (t1 ++ ' ' :: (t2 ++ ' ' :: (t3 ++ ' ' :: (t4 ++ '"' :: r)))) ∧
        t1 ≠ [] ∧ (∀ c ∈ t1, isVbSigned c = true) ∧
        t2 ≠ [] ∧ (∀ c ∈ t2, isVbSigned c = true) ∧
        t3 ≠ [] ∧ (∀ c ∈ t3, isVbUnsigned c = true) ∧
        t4 ≠ [] ∧ (∀ c ∈ t4, isVbUnsigned c = true) ∧
        k = t1.length + t2.length + t3.length + t4.length + 13) ∧
    (viewBoxSubL ⟨"", "#fff", 20, 20, "0 0 9 9"⟩
        ("<svg viewBox=\"-- .. 1. .\">").data =
      ("<svg viewBox=\"0 0 9 9\">").data) ∧
    (∀ conv : SvgCodeToHtmlConverter,
      viewBoxSubL conv ("<svg viewBox=\"+0 0 20 20\">").data =
        ("<svg viewBox=\"+0 0 20 20\">").data) := by
  refine ⟨?_, by decide, ?_⟩
  · intro s k
    exact viewBoxMatch_some_iff
  · intro conv
    exact reSub_of_noMatchAll (by decide)

theorem C10_viewbox_witness :
    ∃ t1 t2 t3 t4 r,
      ("viewBox=\"-- .. 1. .\"").data = viewBoxName ++ '=' :: '"' ::
          (t1 ++ ' ' :: (t2 ++ ' ' :: (t3 ++ ' ' :: (t4 ++ '"' :: r)))) ∧
      t1 ≠ [] ∧ (∀ c ∈ t1, isVbSigned c = true) ∧
      t2 ≠ [] ∧ (∀ c ∈ t2, isVbSigned c = true) ∧
      t3 ≠ [] ∧ (∀ c ∈ t3, isVbUnsigned c = true) ∧
      t4 ≠ [] ∧ (∀ c ∈ t4, isVbUnsigned c = true) ∧
      20 = t1.length + t2.length + t3.length + t4.length + 13 :=
  (C10_viewbox.1 ("viewBox=\"-- .. 1. .\"").data 20).mp (by decide)

/-- C3 counterexample: with the hex-form color, applying transform twice
is not always the same as applying it once: one pass over the splicing
input leaves a fresh namespace prefix in the output, and the second pass
strips it away. -/
theorem C3_idem_cex :
    transform (transform ":svsvg:g" ⟨"#fff", 20, 20, "0 0 20 20"⟩)
        ⟨"#fff", 20, 20, "0 0 20 20"⟩ ≠
      transform ":svsvg:g" ⟨"#fff", 20, 20, "0 0 20 20"⟩ := by decide

/-- C3 (amended): for a configured color of the hash-word form and a
configured viewBox containing neither a line-feed character nor a
backslash, the conversion with re.sub's template processing modelled
explicitly returns the value of transform on every input, the stroke and
the fill substitutions are each idempotent on every line, and the full
transform is idempotent whenever each line of its output is moreover left
unchanged by the stripping, tag-normalization and stroke stages of a
second pass (a hash-word color is word characters only, hence free of
line feeds and backslashes, so no separate restriction on the color is
needed); unconditionally the claim fails, because the stripping stage can
splice together a new namespace prefix for the second pass to remove. -/
theorem C3_idem (s : String) (cfg : TransformConfig) (w : List Char)
    (hcolor : cfg.color.data = '#' :: w) (hw_ne : w ≠ [])
    (hw_w : ∀ c ∈ w, isWordChar c = true) (hv : '\n' ∉ cfg.viewBox.data)
    (hvb : '\\' ∉ cfg.viewBox.data)
    (hfix : ∀ line ∈ (splitLines s.data).map (lineTransform (mkConv s cfg)),
      clearSvgL line = line ∧
      changeSvgTagL (mkConv s cfg) line = line ∧
      changeStrokeL (mkConv s cfg) line = line) :
    (∀ u : String, get_svg_tagE (mkConv u cfg) = some (transform u cfg)) ∧
    (∀ l : List Char,
      changeStrokeL (mkConv s cfg) (changeStrokeL (mkConv s cfg) l) =
        changeStrokeL (mkConv s cfg) l ∧
      changeFillL (mkConv s cfg) (changeFillL (mkConv s cfg) l) =
        changeFillL (mkConv s cfg) l) ∧
    transform (transform s cfg) cfg = transform s cfg := by
  have hcolor' : (mkConv s cfg).hex_color.data = '#' :: w := hcolor
  have hc : '\n' ∉ cfg.color.data := by
    rw [hcolor]
    intro hmem
    rcases List.mem_cons.mp hmem with h | h
    · exact absurd h (by decide)
    · exact absurd (hw_w '\n' h) (by decide)
  have hcb : '\\' ∉ cfg.color.data := by
    rw [hcolor]
    intro hmem
    rcases List.mem_cons.mp hmem with h | h
    · exact absurd h (by decide)
    · exact absurd (hw_w '\\' h) (by decide)
  refine ⟨fun u => get_svg_tagE_of_no_backslash (mkConv u cfg) hcb hvb, ?_⟩
  constructor
  · intro l
    exact ⟨changeStrokeL_idem (mkConv s cfg) hcolor' hw_ne hw_w l,
           changeFillL_idem (mkConv s cfg) hcolor' hw_ne hw_w l⟩
  · have hfix2 : ∀ line ∈ (splitLines s.data).map (lineTransform (mkConv s cfg)),
        lineTransform (mkConv s cfg) line = line := by
      intro line hline
      rcases hfix line hline with ⟨h1, h2, h3⟩
      rcases List.mem_map.mp hline with ⟨row, _, hlrow⟩
      unfold lineTransform
      rw [h1, h2, h3]
      rw [← hlrow]
      exact changeFillL_idem (mkConv s cfg) hcolor' hw_ne hw_w
        (changeStrokeL (mkConv s cfg) (changeSvgTagL (mkConv s cfg) (clearSvgL row)))
    have hlines : splitLines (transform s cfg).data =
        (splitLines s.data).map (lineTransform (mkConv s cfg)) :=
      transform_lines (mkConv s cfg) hc hv
    rw [transform_eq_map (transform s cfg) cfg]
    have hsame : lineTransform (mkConv (transform s cfg) cfg) =
        lineTransform (mkConv s cfg) := rfl
    rw [hsame, hlines]
    have hmapfix : ((splitLines s.data).map (lineTransform (mkConv s cfg))).map
          (lineTransform (mkConv s cfg)) =
        (splitLines s.data).map (lineTransform (mkConv s cfg)) := by
      have h1 := List.map_congr_left hfix2
      rw [h1]
      simp
    rw [hmapfix]
    exact (transform_eq_map s cfg).symm

theorem C3_idem_witness :
    transform (transform "<path stroke=\"#000\" fill=\"#111\"/>"
        ⟨"#ff0000", 20, 20, "0 0 20 20"⟩) ⟨"#ff0000", 20, 20, "0 0 20 20"⟩ =
      transform "<path stroke=\"#000\" fill=\"#111\"/>"
        ⟨"#ff0000", 20, 20, "0 0 20 20"⟩ :=
  (C3_idem "<path stroke=\"#000\" fill=\"#111\"/>" ⟨"#ff0000", 20, 20, "0 0 20 20"⟩
    ['f', 'f', '0', '0', '0', '0'] (by decide) (by decide) (by decide) (by decide)
    (by decide) (by decide)).2.2
